import Mathlib

/-!
Verification development for the petnetsim execution engine
(src/petnetsim/__init__.py): places, transitions, arcs, the derived
conflict-group partition, and the step algorithm with timed two-phase
firing.

Embedding notes.
The engine file src/petnetsim/__init__.py is present in the repository and
is embedded directly (PetriNet construction, _make_conflict_groups, reset,
step).  The entity module petnetsim/elements.py (Place, Arc, Inhibitor,
Transition and its variants) is not part of the repository sources, so the
entity behaviour is modelled from the specification, as marked on each
definition.

Simulation time is float-valued in the source; it is embedded over an
arbitrary linearly ordered commutative ring so the theorems hold for any
exact model of the reals, while concrete runs instantiate it at Int.
The numpy global random generator consumed by step() is embedded as an
explicit tape of naturals threaded through the step function: each random
pick consumes the head of the tape and indexes into the candidate list,
which is faithful to a process-global sequential generator shared by all
network instances.  Weighted stochastic picks are embedded by their
support (the drawn element is some member of the candidate list).
-/

namespace PetNetSim

instance {ε α : Type} [DecidableEq ε] [DecidableEq α] : DecidableEq (Except ε α) := fun x y =>
  match x, y with
  | .ok a, .ok b =>
    if h : a = b then isTrue (h ▸ rfl) else isFalse (fun hh => h (Except.ok.inj hh))
  | .error e, .error f =>
    if h : e = f then isTrue (h ▸ rfl) else isFalse (fun hh => h (Except.error.inj hh))
  | .ok _, .error _ => isFalse (fun hh => Except.noConfusion hh)
  | .error _, .ok _ => isFalse (fun hh => Except.noConfusion hh)

/-- Modelled from the spec: petnetsim/elements.py is missing from the
sources.  A Place holds a current token count, an optional capacity and an
initial token count (spec section 3); the token count lives in the network
state, so the static descriptor keeps the initial count and the capacity. -/
structure Place where
  init_tokens : Int
  capacity : Option Int
deriving Repr, DecidableEq

instance : Inhabited Place := ⟨⟨0, none⟩⟩

/-- Modelled from the spec: an arc endpoint as seen from a transition
after construction has resolved names; it records the place index and the
weight n_tokens (spec section 3). -/
structure ArcDef where
  place : Nat
  n_tokens : Int
deriving Repr, DecidableEq

/-- Capability variant of a transition (spec section 3): Normal, Priority
with an integer priority, Stochastic with a probability weight, or Timed.
The probability weight is kept as a pair numerator/denominator of naturals;
only its identity matters to the claims (the weighted draw is embedded by
its support). -/
inductive TKind where
  | normal : TKind
  | priority : Nat → TKind
  | stochastic : Nat → TKind
  | timed : TKind
deriving Repr, DecidableEq

/-- Modelled from the spec: petnetsim/elements.py is missing from the
sources.  A frozen Transition holds its ordinary input arcs, its inhibitor
input arcs, its output arcs and its capability variant (spec sections 3
and 4.1); the timed is_waiting flag lives in the network state. -/
structure Transition where
  inputs : List ArcDef
  inhibitors : List ArcDef
  outputs : List ArcDef
  kind : TKind
deriving Repr, DecidableEq

instance : Inhabited Transition := ⟨⟨[], [], [], .normal⟩⟩

/-- Static description of a constructed network: the places and the frozen
transitions (PetriNet.__init__ stores tuples of both; arcs are already
resolved into the transitions). -/
structure PetriNet where
  places : List Place
  transitions : List Transition
deriving Repr

def getTrans (net : PetriNet) (ti : Nat) : Transition :=
  net.transitions.getD ti default

/-- Ordinary (non-inhibitor) input source places of a transition, as used
by _make_conflict_groups (set(arc.source for arc in t.inputs if
isinstance(arc, Arc))). -/
def ordSources (t : Transition) : List Nat :=
  t.inputs.map (fun a => a.place)

/-- All input source places, inhibitors included, as used by the
stochastic-group check in _make_conflict_groups (set(i.source for i in
t.inputs) with no isinstance filter; the spec gives a Transition a set of
input arcs holding ordinary and inhibitor arcs together). -/
def allSources (t : Transition) : List Nat :=
  t.inputs.map (fun a => a.place) ++ t.inhibitors.map (fun a => a.place)

/-- Two transitions overlap when they share an ordinary input place
(not t_in.isdisjoint(cg_t_in) in _make_conflict_groups). -/
def tOverlap (a b : Transition) : Bool :=
  (ordSources a).any (fun p => (ordSources b).contains p)

/-- One iteration of the grouping loop of _make_conflict_groups: the
transition ti is added to the first existing group containing a member
whose ordinary input sources overlap those of ti; if no group matches, a
new singleton group is appended at the end. -/
def addToGroups (ts : List Transition) (ti : Nat) :
    List (List Nat) → List (List Nat)
  | [] => [[ti]]
  | g :: gs =>
    if g.any (fun tj => tOverlap (ts.getD ti default) (ts.getD tj default)) then
      (ti :: g) :: gs
    else
      g :: addToGroups ts ti gs

/-- The conflict-group partition built by _make_conflict_groups: process
the transitions in index order, placing each one by addToGroups.  Groups
are lists of transition indices. -/
def makeConflictGroups (ts : List Transition) : List (List Nat) :=
  (List.range ts.length).foldl (fun gs ti => addToGroups ts ti gs) []

/-- The shared-ordinary-input-place relation between transition indices. -/
def sharesInput (ts : List Transition) (i j : Nat) : Prop :=
  tOverlap (ts.getD i default) (ts.getD j default) = true

instance (ts : List Transition) (i j : Nat) : Decidable (sharesInput ts i j) := by
  unfold sharesInput; infer_instance

/-- Connectivity through chains of shared ordinary input places. -/
def sharesChain (ts : List Transition) (i j : Nat) : Prop :=
  Relation.ReflTransGen (sharesInput ts) i j

/-- Whether two transition indices land in the same conflict group. -/
def sameGroup (ts : List Transition) (i j : Nat) : Bool :=
  (makeConflictGroups ts).any (fun g => g.contains i && g.contains j)

/-- The four conflict-group resolution types (class ConflictGroupType). -/
inductive ConflictGroupType where
  | Normal : ConflictGroupType
  | Priority : ConflictGroupType
  | Stochastic : ConflictGroupType
  | Timed : ConflictGroupType
deriving Repr, DecidableEq, BEq

/-- The per-transition group type preference (t_cg_type inside
_make_conflict_groups). -/
def t_cg_type (t : Transition) : ConflictGroupType :=
  match t.kind with
  | .normal => .Normal
  | .priority _ => .Priority
  | .stochastic _ => .Stochastic
  | .timed => .Timed

/-- Equality of two lists of place indices viewed as sets (the python
code compares set(...) == set(...)). -/
def listSetEq (a b : List Nat) : Bool :=
  a.all (fun x => b.contains x) && b.all (fun x => a.contains x)

/-- Classification of one conflict group (the type-determination loop of
_make_conflict_groups): all Normal gives Normal; Normal and Priority give
Priority; Normal and Timed give Timed; all Stochastic gives Stochastic
provided every member has the same full input source set as the first
member (the source compares set(i.source for i in t.inputs), inhibitors
included); any other mixture is an error. -/
def classifyGroup (net : PetriNet) (g : List Nat) : Except String ConflictGroupType :=
  let tys := g.map (fun ti => t_cg_type (getTrans net ti))
  if tys.all (fun tt => tt == ConflictGroupType.Normal) then
    .ok .Normal
  else if tys.all (fun tt => tt == ConflictGroupType.Normal || tt == ConflictGroupType.Priority) then
    .ok .Priority
  else if tys.all (fun tt => tt == ConflictGroupType.Normal || tt == ConflictGroupType.Timed) then
    .ok .Timed
  else if tys.all (fun tt => tt == ConflictGroupType.Stochastic) then
    if g.all (fun ti => listSetEq (allSources (getTrans net ti))
        (allSources (getTrans net (g.headD 0)))) then
      .ok .Stochastic
    else
      .error "all members of stochastic group must share the same inputs"
  else
    .error "Unsupported combination of transitions"

/-- Classification of every conflict group of the network, in order; an
error on any group aborts construction (_make_conflict_groups raises). -/
def makeGroupTypes (net : PetriNet) : Except String (List ConflictGroupType) :=
  (makeConflictGroups net.transitions).mapM (classifyGroup net)

/-- The group types used by step on a successfully constructed network
(construction would have raised otherwise, so the fallback is arbitrary). -/
def groupTypes (net : PetriNet) : List ConflictGroupType :=
  (makeConflictGroups net.transitions).map (fun g =>
    match classifyGroup net g with
    | .ok t => t
    | .error _ => .Normal)

/-- Mutable network state, parameterised over the ordered ring of
simulation time: per-place token counts, the per-transition timed
is_waiting flags, the per-group waiting timers, the clock, the step
counter, the two fired logs, the warning log of the most recent step, and
the ended flag. -/
structure NetState (T : Type) where
  tokens : List Int
  is_waiting : List Bool
  conflict_groups_waiting : List T
  time : T
  step_num : Nat
  fired : List Nat
  fired_phase2 : List Nat
  warnings : List Nat
  ended : Bool
deriving Repr, DecidableEq

variable {T : Type} [LinearOrderedCommRing T]

/-- The state after PetriNet.__init__: initial tokens, no transition
waiting, all group timers zero, clock and step counter zero, empty logs. -/
def initState (net : PetriNet) : NetState T :=
  { tokens := net.places.map (fun p => p.init_tokens)
    is_waiting := List.replicate net.transitions.length false
    conflict_groups_waiting := List.replicate (makeConflictGroups net.transitions).length 0
    time := 0
    step_num := 0
    fired := []
    fired_phase2 := []
    warnings := []
    ended := false }

/-- PetriNet.reset: clears the ended flag, the step counter, the clock and
the fired log, zeroes every group waiting timer, and restores every place
and transition to its initial state (Place.reset and Transition.reset are
modelled from the spec: tokens back to init_tokens, is_waiting cleared).
The fired_phase2 log is not touched by the source. -/
def reset (net : PetriNet) (s : NetState T) : NetState T :=
  { s with
    ended := false
    step_num := 0
    time := 0
    fired := []
    conflict_groups_waiting := List.replicate (makeConflictGroups net.transitions).length 0
    is_waiting := List.replicate net.transitions.length false
    tokens := net.places.map (fun p => p.init_tokens) }

def getTok (tokens : List Int) (p : Nat) : Int :=
  tokens.getD p 0

/-- Modelled from the spec: Transition.enabled (spec section 4.1) — every
ordinary input arc is satisfiable (source tokens at least the arc weight),
no inhibitor arc is triggered (source tokens at least its threshold), and
a timed transition is not enabled while it is waiting. -/
def enabled (net : PetriNet) (s : NetState T) (ti : Nat) : Bool :=
  let t := getTrans net ti
  t.inputs.all (fun a => a.n_tokens ≤ getTok s.tokens a.place) &&
  t.inhibitors.all (fun a => !(a.n_tokens ≤ getTok s.tokens a.place)) &&
  (match t.kind with
   | .timed => !(s.is_waiting.getD ti false)
   | _ => true)

/-- Modelled from the spec: Transition.output_possible (spec section 4.1) —
every output arc target has enough remaining capacity for the arc weight. -/
def output_possible (net : PetriNet) (tokens : List Int) (ti : Nat) : Bool :=
  (getTrans net ti).outputs.all (fun a =>
    match (net.places.getD a.place default).capacity with
    | none => true
    | some c => getTok tokens a.place + a.n_tokens ≤ c)

def addTok (tokens : List Int) (p : Nat) (d : Int) : List Int :=
  tokens.set p (getTok tokens p + d)

/-- Modelled from the spec: the token movement of a firing (spec section
4.1) — decrement every ordinary input source by its arc weight, increment
every output target by its arc weight. -/
def fireMove (net : PetriNet) (ti : Nat) (tokens : List Int) : List Int :=
  let t := getTrans net ti
  let tk := t.inputs.foldl (fun tk a => addTok tk a.place (-a.n_tokens)) tokens
  t.outputs.foldl (fun tk a => addTok tk a.place a.n_tokens) tk

def isTimed (t : Transition) : Bool :=
  match t.kind with
  | .timed => true
  | _ => false

def prioOf (t : Transition) : Nat :=
  match t.kind with
  | .priority p => p
  | _ => 0

/-- The process-global numpy random generator consumed by np.random.choice
in step(), embedded as a tape of naturals: every draw consumes the head.
The tape is shared by every network stepping in the process, exactly as
np.random module state is. -/
structure Rng where
  tape : List Nat
deriving Repr, DecidableEq

def draw (r : Rng) : Nat × Rng :=
  (r.tape.headD 0, ⟨r.tape.tail⟩)

/-- One np.random.choice(candidates) call: consume a draw and index into
the candidate list with it. -/
def pickFrom (l : List Nat) (r : Rng) : Nat × Rng :=
  let d := draw r
  (l.getD (d.1 % l.length) 0, d.2)

/-- The per-group selection of step() (the ConflictGroupType dispatch):
given the enabled member indices of the group in ascending order, its
type, its waiting timer and the generator, return the selected transition
(if any), the new waiting timer of the group and the generator.
Normal picks uniformly; Priority restricts to the members attaining the
maximum priority (Normal members count as priority 0) and picks among
those; Stochastic draws from the enabled members (embedded by support);
Timed with a non-positive timer prefers the enabled normal-role members
and otherwise commits an enabled timed member, setting the group timer to
its sampled delay choose_time; Timed with a positive timer yields no
selection. -/
def selectIdx (net : PetriNet) (choose_time : Nat → T) (cgt : ConflictGroupType)
    (tIdxs : List Nat) (w : T) (r : Rng) : Option Nat × T × Rng :=
  match cgt with
  | .Normal =>
    let x := pickFrom tIdxs r
    (some x.1, w, x.2)
  | .Priority =>
    let prios := tIdxs.map (fun ti => prioOf (getTrans net ti))
    let mx := prios.foldl max 0
    let epIdxs := (List.range tIdxs.length).filter (fun k => prios.getD k 0 == mx)
    let x := pickFrom epIdxs r
    (some (tIdxs.getD x.1 0), w, x.2)
  | .Stochastic =>
    let x := pickFrom tIdxs r
    (some x.1, w, x.2)
  | .Timed =>
    if w ≤ 0 then
      let normals := tIdxs.filter (fun ti => !(isTimed (getTrans net ti)))
      if normals.isEmpty then
        let timeds := tIdxs.filter (fun ti => isTimed (getTrans net ti))
        let x := pickFrom timeds r
        (some x.1, choose_time x.1, x.2)
      else
        let x := pickFrom normals r
        (some x.1, w, x.2)
    else
      (none, w, r)

/-- Accumulator of the phase-1 firing loop: the evolving state, the
num_fired counter and the generator. -/
structure P1 (T : Type) where
  s : NetState T
  num_fired : Nat
  rng : Rng

/-- The firing tail of the group loop: a selected transition is fired when
output_possible holds (a timed transition merely raises its is_waiting
flag — phase-1 moves no tokens, as the spec models fire() for timed —
while the other kinds move tokens at once), and both are appended to the
fired log; otherwise a warning is recorded and the step goes on. -/
def fireSel (net : PetriNet) (sel : Option Nat) (st : P1 T) : P1 T :=
  match sel with
  | none => st
  | some ti =>
    if output_possible net st.s.tokens ti then
      if isTimed (getTrans net ti) then
        { st with
          s := { st.s with is_waiting := st.s.is_waiting.set ti true,
                           fired := st.s.fired ++ [ti] }
          num_fired := st.num_fired + 1 }
      else
        { st with
          s := { st.s with tokens := fireMove net ti st.s.tokens,
                           fired := st.s.fired ++ [ti] }
          num_fired := st.num_fired + 1 }
    else
      { st with s := { st.s with warnings := st.s.warnings ++ [ti] } }

/-- The enabled flags computed once at the top of step(). -/
def computeEnabled (net : PetriNet) (s : NetState T) : List Bool :=
  (List.range net.transitions.length).map (enabled net s)

/-- The enabled members of one group in ascending index order
(np.argwhere on the masked enabled row). -/
def groupEnabledIdxs (net : PetriNet) (enabled0 : List Bool) (g : List Nat) : List Nat :=
  (List.range net.transitions.length).filter (fun ti =>
    g.contains ti && enabled0.getD ti false)

/-- One iteration of the conflict-group loop of step(): skip the group if
no member is enabled, otherwise select by group type (which may set the
group waiting timer on a timed commitment) and fire the selection. -/
def processGroup (net : PetriNet) (choose_time : Nat → T) (enabled0 : List Bool)
    (groups : List (List Nat)) (types : List ConflictGroupType)
    (st : P1 T) (cgi : Nat) : P1 T :=
  let tIdxs := groupEnabledIdxs net enabled0 (groups.getD cgi [])
  if tIdxs.isEmpty then st
  else
    let sel := selectIdx net choose_time (types.getD cgi .Normal) tIdxs
      (st.s.conflict_groups_waiting.getD cgi 0) st.rng
    fireSel net sel.1
      { st with
        s := { st.s with
               conflict_groups_waiting := st.s.conflict_groups_waiting.set cgi sel.2.1 }
        rng := sel.2.2 }

/-- The whole phase-1 pass of step(): when some transition is enabled,
run the group loop over every conflict group in order. -/
def phase1 (net : PetriNet) (choose_time : Nat → T) (enabled0 : List Bool)
    (groups : List (List Nat)) (types : List ConflictGroupType) (st0 : P1 T) : P1 T :=
  if enabled0.any id then
    (List.range groups.length).foldl (processGroup net choose_time enabled0 groups types) st0
  else st0

/-- Minimum of the positive entries of a list (np.min over the positive
mask); 0 when there is none (the source never evaluates that case). -/
def minPos (l : List T) : T :=
  match l.filter (fun x => 0 < x) with
  | [] => 0
  | x :: xs => xs.foldl min x

/-- The timed-role members of one group in ascending index order
(np.where(conflict_group_data[cgi][0])). -/
def timedMembers (net : PetriNet) (g : List Nat) : List Nat :=
  (List.range net.transitions.length).filter (fun ti =>
    g.contains ti && isTimed (getTrans net ti))

/-- Modelled from the spec: TransitionTimed.fire_phase2 (spec sections 4.1
and the glossary) — performs the actual token transfer of the committed
timed transition and clears its is_waiting flag; the step code records it
in the fired_phase2 log. -/
def fire_phase2 (net : PetriNet) (ti : Nat) (s : NetState T) : NetState T :=
  { s with
    tokens := fireMove net ti s.tokens
    is_waiting := s.is_waiting.set ti false
    fired_phase2 := s.fired_phase2 ++ [ti] }

/-- The loop over the groups whose timer equals the minimum (the argwhere
loop of step()): for each such group, the first timed member that is
waiting is phase-2 fired if its output is possible and a RuntimeError is
raised otherwise; the group timer is then cleared to zero. -/
def advanceGroups (net : PetriNet) (groups : List (List Nat)) (m : T) :
    List Nat → NetState T → Except String (NetState T)
  | [], s => .ok s
  | cgi :: rest, s =>
    if s.conflict_groups_waiting.getD cgi 0 = m then
      match (timedMembers net (groups.getD cgi [])).find?
          (fun ti => s.is_waiting.getD ti false) with
      | none =>
        advanceGroups net groups m rest
          { s with conflict_groups_waiting := s.conflict_groups_waiting.set cgi 0 }
      | some ti =>
        if output_possible net s.tokens ti then
          advanceGroups net groups m rest
            { fire_phase2 net ti s with
              conflict_groups_waiting :=
                (fire_phase2 net ti s).conflict_groups_waiting.set cgi 0 }
        else
          .error "timed transition was fired, but output not possible for phase 2"
    else
      advanceGroups net groups m rest s

/-- The clock-advance branch of step(): add the minimum positive waiting
timer to the clock, phase-2 fire the groups sitting at that minimum, then
subtract the advanced amount from every group timer, floored at zero. -/
def advance (net : PetriNet) (groups : List (List Nat)) (s : NetState T) :
    Except String (NetState T) :=
  let m := minPos s.conflict_groups_waiting
  match advanceGroups net groups m (List.range groups.length)
      { s with time := s.time + m } with
  | .error e => .error e
  | .ok s1 =>
    .ok { s1 with
          conflict_groups_waiting :=
            s1.conflict_groups_waiting.map (fun w => max (w - m) 0) }

/-- The front half of PetriNet.step with record_fired=True: clear the two
fired logs (and the transient warning log), compute the enabled flags, and
run the phase-1 conflict-group firing loop. -/
def stepPhase1 (net : PetriNet) (choose_time : Nat → T) (s : NetState T) (r : Rng) : P1 T :=
  let s0 : NetState T := { s with fired := [], fired_phase2 := [], warnings := [] }
  phase1 net choose_time (computeEnabled net s0) (makeConflictGroups net.transitions)
    (groupTypes net) ⟨s0, 0, r⟩

/-- The tail of step(): mark the run ended when nothing was enabled and no
group timer was positive, and increment the step counter. -/
def stepFinish (enabled_any : Bool) (num_waiting : Nat) (s1 : NetState T) : NetState T :=
  let s2 := if !enabled_any && num_waiting == 0 then { s1 with ended := true } else s1
  { s2 with step_num := s2.step_num + 1 }

/-- PetriNet.step with record_fired=True: run the phase-1 group loop, then,
when nothing fired immediately and some group timer is positive, advance
the clock and phase-2 fire; finally set the ended flag when nothing was
enabled and no timer was positive, and increment the step counter.  (The
enabled flags only read tokens and waiting flags, which the log clearing
does not touch, so they are computed from s directly.) -/
def step (net : PetriNet) (choose_time : Nat → T) (s : NetState T) (r : Rng) :
    Except String (NetState T × Rng) :=
  let p := stepPhase1 net choose_time s r
  let num_waiting := (p.s.conflict_groups_waiting.filter (fun w => 0 < w)).length
  let after : Except String (NetState T) :=
    if 0 < num_waiting ∧ p.num_fired = 0 then
      advance net (makeConflictGroups net.transitions) p.s
    else .ok p.s
  match after with
  | .error e => .error e
  | .ok s1 => .ok (stepFinish ((computeEnabled net s).any id) num_waiting s1, p.rng)

/-- Run a fixed number of steps, stopping at the first error. -/
def runSteps (net : PetriNet) (choose_time : Nat → T) :
    Nat → NetState T × Rng → Except String (NetState T × Rng)
  | 0, sr => .ok sr
  | n + 1, sr =>
    match step net choose_time sr.1 sr.2 with
    | .error e => .error e
    | .ok sr1 => runSteps net choose_time n sr1

/-! Concrete networks used by the witnesses and counterexamples. -/

/-- Three normal transitions: t0 reads place 0, t1 reads place 1, t2 reads
both.  t2 bridges the groups of t0 and t1 after both already exist. -/
def netBridge : PetriNet :=
  { places := [⟨1, none⟩, ⟨1, none⟩]
    transitions :=
      [ ⟨[⟨0, 1⟩], [], [], .normal⟩
      , ⟨[⟨1, 1⟩], [], [], .normal⟩
      , ⟨[⟨0, 1⟩, ⟨1, 1⟩], [], [], .normal⟩ ] }

/-- One timed transition moving a token from place 0 to place 1. -/
def netTimed : PetriNet :=
  { places := [⟨1, none⟩, ⟨0, none⟩]
    transitions := [⟨[⟨0, 1⟩], [], [⟨1, 1⟩], .timed⟩] }

/-- Constant delay sampler returning 5. -/
def delay5 : Nat → Int := fun _ => 5

/-- Two stochastic transitions sharing ordinary input place 0, where t0
additionally carries an inhibitor arc from place 1. -/
def netStoch : PetriNet :=
  { places := [⟨1, none⟩, ⟨0, none⟩]
    transitions :=
      [ ⟨[⟨0, 1⟩], [⟨1, 1⟩], [], .stochastic 1⟩
      , ⟨[⟨0, 1⟩], [], [], .stochastic 1⟩ ] }

/-- Two always-enabled normal transitions competing for place 0: a single
Normal conflict group with two members. -/
def netPair : PetriNet :=
  { places := [⟨10, none⟩]
    transitions :=
      [ ⟨[⟨0, 1⟩], [], [], .normal⟩
      , ⟨[⟨0, 1⟩], [], [], .normal⟩ ] }

/-- Two independent normal transitions on disjoint places: two singleton
conflict groups. -/
def netTwo : PetriNet :=
  { places := [⟨1, none⟩, ⟨1, none⟩]
    transitions :=
      [ ⟨[⟨0, 1⟩], [], [], .normal⟩
      , ⟨[⟨1, 1⟩], [], [], .normal⟩ ] }

/-- A normal transition whose output place has capacity 0: enabled but
output never possible. -/
def netFull : PetriNet :=
  { places := [⟨1, none⟩, ⟨0, some 0⟩]
    transitions := [⟨[⟨0, 1⟩], [], [⟨1, 1⟩], .normal⟩] }

/-- A timed transition feeding place 1 of capacity 1, and an independent
normal transition feeding the same place: the normal firing fills the
place between the timed commitment and its phase-2 firing. -/
def netBlock : PetriNet :=
  { places := [⟨1, none⟩, ⟨0, some 1⟩, ⟨1, none⟩]
    transitions :=
      [ ⟨[⟨0, 1⟩], [], [⟨1, 1⟩], .timed⟩
      , ⟨[⟨2, 1⟩], [], [⟨1, 1⟩], .normal⟩ ] }

/-- A zero-priority and a priority-3 transition competing for place 0. -/
def netPrio : PetriNet :=
  { places := [⟨1, none⟩]
    transitions :=
      [ ⟨[⟨0, 1⟩], [], [], .normal⟩
      , ⟨[⟨0, 1⟩], [], [], .priority 3⟩ ] }

/-- Fired logs of two successive steps of one network instance that has
the process-global generator to itself. -/
def soloPair (net : PetriNet) (choose_time : Nat → T) (r : Rng) :
    Except String (List Nat × List Nat) := do
  let a1 ← step net choose_time (initState net) r
  let a2 ← step net choose_time a1.1 a1.2
  pure (a1.1.fired, a2.1.fired)

/-- Fired logs of the same two steps of instance A when a second instance
B of the very same network performs one step between them, consuming the
shared process-global generator. -/
def interleavedPair (net : PetriNet) (choose_time : Nat → T) (r : Rng) :
    Except String (List Nat × List Nat) := do
  let a1 ← step net choose_time (initState net) r
  let b1 ← step net choose_time (initState net) a1.2
  let a2 ← step net choose_time a1.1 b1.2
  pure (a1.1.fired, a2.1.fired)

/-! ## Helper lemmas -/

lemma getD_mem {l : List Nat} {i : Nat} (d : Nat) (h : i < l.length) : l.getD i d ∈ l := by
  rw [List.getD_eq_getElem?_getD, List.getElem?_eq_getElem h]
  exact List.getElem_mem h

lemma pickFrom_mem {l : List Nat} (r : Rng) (h : l ≠ []) : (pickFrom l r).1 ∈ l := by
  have hl : 0 < l.length := List.length_pos.mpr h
  exact getD_mem 0 (Nat.mod_lt _ hl)

lemma foldl_max_init (l : List Nat) (a : Nat) : a ≤ l.foldl max a := by
  induction l generalizing a with
  | nil => exact le_refl a
  | cons y ys ih => exact le_trans (le_max_left a y) (ih (max a y))

lemma foldl_max_ge (l : List Nat) (a : Nat) : ∀ x ∈ l, x ≤ l.foldl max a := by
  induction l generalizing a with
  | nil => intro x hx; cases hx
  | cons y ys ih =>
    intro x hx
    rcases List.mem_cons.mp hx with he | hx
    · subst he
      exact le_trans (le_max_right a x) (foldl_max_init ys (max a x))
    · exact ih (max a y) x hx

lemma foldl_max_mem (l : List Nat) (a : Nat) : l.foldl max a = a ∨ l.foldl max a ∈ l := by
  induction l generalizing a with
  | nil => exact Or.inl rfl
  | cons y ys ih =>
    rcases ih (max a y) with he | hm
    · rw [List.foldl_cons, he]
      rcases Nat.le_total a y with hay | hya
      · exact Or.inr (by simp [max_eq_right hay])
      · exact Or.inl (max_eq_left hya)
    · exact Or.inr (List.mem_cons_of_mem y hm)

lemma foldl_min_mem {α : Type} [LinearOrder α] (l : List α) (a : α) :
    l.foldl min a = a ∨ l.foldl min a ∈ l := by
  induction l generalizing a with
  | nil => exact Or.inl rfl
  | cons y ys ih =>
    rcases ih (min a y) with he | hm
    · rw [List.foldl_cons, he]
      rcases le_total a y with hay | hya
      · exact Or.inl (min_eq_left hay)
      · exact Or.inr (by simp [min_eq_right hya])
    · exact Or.inr (List.mem_cons_of_mem y hm)

lemma minPos_pos (l : List T) (h : l.filter (fun x => 0 < x) ≠ []) : 0 < minPos l := by
  obtain ⟨x, xs, hf⟩ := List.exists_cons_of_ne_nil h
  have hx : ∀ y ∈ x :: xs, (0 : T) < y := by
    intro y hy
    have hmem : y ∈ l.filter (fun x => 0 < x) := hf ▸ hy
    have := (List.mem_filter.mp hmem).2
    exact of_decide_eq_true this
  unfold minPos
  rw [hf]
  show 0 < xs.foldl min x
  rcases foldl_min_mem xs x with he | hm
  · rw [he]; exact hx x (List.mem_cons_self x xs)
  · exact hx _ (List.mem_cons_of_mem x hm)

lemma minPos_nonneg (l : List T) : 0 ≤ minPos l := by
  by_cases h : l.filter (fun x => 0 < x) = []
  · unfold minPos; rw [h]
  · exact le_of_lt (minPos_pos l h)

lemma getD_of_lt {α : Type} (l : List α) (i : Nat) (d : α) (h : i < l.length) :
    l.getD i d = l[i] := by
  rw [List.getD_eq_getElem?_getD, List.getElem?_eq_getElem h]
  rfl

lemma foldl_max_zero_mem (l : List Nat) (h : l ≠ []) : l.foldl max 0 ∈ l := by
  rcases foldl_max_mem l 0 with he | hm
  · obtain ⟨p, ps, rfl⟩ := List.exists_cons_of_ne_nil h
    have hple : p ≤ (p :: ps).foldl max 0 :=
      foldl_max_ge (p :: ps) 0 p (List.mem_cons_self p ps)
    rw [he] at hple
    have hp0 : p = 0 := Nat.le_zero.mp hple
    rw [he, ← hp0]
    exact List.mem_cons_self p ps
  · exact hm

lemma listSetEq_iff (a b : List Nat) : listSetEq a b = true ↔ ∀ x, x ∈ a ↔ x ∈ b := by
  unfold listSetEq
  simp only [Bool.and_eq_true, List.all_eq_true, List.contains_eq_any_beq,
    List.any_eq_true, beq_iff_eq]
  constructor
  · rintro ⟨h1, h2⟩ x
    constructor
    · intro hx
      obtain ⟨y, hy, he⟩ := h1 x hx
      exact he ▸ hy
    · intro hx
      obtain ⟨y, hy, he⟩ := h2 x hx
      exact he ▸ hy
  · intro h
    constructor
    · intro x hx
      exact ⟨x, (h x).mp hx, rfl⟩
    · intro x hx
      exact ⟨x, (h x).mpr hx, rfl⟩

/-! ## Claim theorems -/

/-- C2 (amended): after reset() the fired log is empty, every group
waiting timer is zero, the clock and the step counter are zero, every
place holds its initial token count, every timed waiting flag is cleared
and ended is false; the conflict groups are a pure function of the static
net, which reset does not touch.  However the fired_phase2 log is NOT
cleared: reset() only clears self.fired. -/
theorem reset_state (net : PetriNet) (s : NetState T) :
    (reset net s).fired = [] ∧
    (reset net s).conflict_groups_waiting =
      List.replicate (makeConflictGroups net.transitions).length (0 : T) ∧
    (reset net s).time = 0 ∧
    (reset net s).step_num = 0 ∧
    (reset net s).tokens = net.places.map (fun p => p.init_tokens) ∧
    (reset net s).is_waiting = List.replicate net.transitions.length false ∧
    (reset net s).ended = false ∧
    (reset net s).fired_phase2 = s.fired_phase2 :=
  ⟨rfl, rfl, rfl, rfl, rfl, rfl, rfl, rfl⟩

/-- C2 counterexample: a reachable state of the one-timed-transition net
(after the commitment step and the phase-2 step) has fired_phase2 = [0];
reset() leaves fired_phase2 = [0], not empty as the claim states. -/
theorem reset_phase2_log_cex :
    (runSteps netTimed delay5 2 ((initState netTimed : NetState Int), Rng.mk [])).map
      (fun x => (reset netTimed x.1).fired_phase2) = .ok [0] ∧
    (Except.ok [0] : Except String (List Nat)) ≠ .ok [] := by
  exact ⟨by decide, by decide⟩

/-- C3 counterexample: on netTwo the state after three steps has ended =
true (nothing enabled, no timer positive), yet a fourth step() is not a
no-op: the step counter changes from 3 to 4. -/
theorem step_after_ended_counter_cex :
    (runSteps netTwo delay5 3 ((initState netTwo : NetState Int), Rng.mk [0, 0])).map
      (fun x => (x.1.ended, x.1.step_num)) = .ok (true, 3) ∧
    (runSteps netTwo delay5 4 ((initState netTwo : NetState Int), Rng.mk [0, 0])).map
      (fun x => (x.1.ended, x.1.step_num)) = .ok (true, 4) ∧
    ((3 : Nat) ≠ 4) := by
  exact ⟨by decide, by decide, by decide⟩

/-- C1 counterexample: in netBridge, transitions 1 and 2 share ordinary
input place 1 (so they are chain-connected), yet the incremental
first-match grouping puts them in different conflict groups, because
transition 2 is captured by the earlier group of transition 0 and groups
are never merged. -/
theorem bridge_shared_input_cex :
    sharesInput netBridge.transitions 1 2 ∧
    sharesChain netBridge.transitions 1 2 ∧
    makeConflictGroups netBridge.transitions = [[2, 0], [1]] ∧
    sameGroup netBridge.transitions 1 2 = false := by
  refine ⟨by decide, Relation.ReflTransGen.single (by decide), by decide, by decide⟩

/-- C6 counterexample: the two stochastic members of netStoch have
identical ordinary input source sets and differ only by an inhibitor arc,
yet construction fails, because the source compares the full input source
set with inhibitors included. -/
theorem stochastic_inhibitor_cex :
    listSetEq (ordSources (getTrans netStoch 0)) (ordSources (getTrans netStoch 1)) = true ∧
    makeConflictGroups netStoch.transitions = [[1, 0]] ∧
    makeGroupTypes netStoch =
      .error "all members of stochastic group must share the same inputs" := by
  exact ⟨by decide, by decide, by decide⟩

/-- C9 counterexample: netPair run solo from the fixed tape [0, 1] fires
transition 0 then transition 1; the same instance, same initial state and
same tape, but with a second instance stepping in between and consuming
the shared global generator, fires transition 0 twice — the fired-name
sequences differ, refuting instance-owned reproducibility. -/
theorem rng_interleaving_cex :
    soloPair netPair delay5 (Rng.mk [0, 1]) = .ok ([0], [1]) ∧
    interleavedPair netPair delay5 (Rng.mk [0, 1]) = .ok ([0], [0]) ∧
    (([0], [1]) : List Nat × List Nat) ≠ ([0], [0]) := by
  exact ⟨by decide, by decide, by decide⟩

/-- C4: the two output_possible failure paths of step().  Phase 1: a
selected transition whose output is not possible is skipped — the state is
unchanged except for the warning log, nothing is fired, num_fired does not
grow, and no error is raised (fireSel is total, so the step continues with
the remaining groups).  Phase 2: a committed timed transition that is
found waiting at its group timer expiry but whose output is no longer
possible raises the fatal RuntimeError. -/
theorem output_violation_paths :
    (∀ (net : PetriNet) (st : P1 T) (ti : Nat),
        output_possible net st.s.tokens ti = false →
        fireSel net (some ti) st =
          { st with s := { st.s with warnings := st.s.warnings ++ [ti] } }) ∧
    (∀ (net : PetriNet) (groups : List (List Nat)) (m : T) (rest : List Nat)
        (s : NetState T) (cgi ti : Nat),
        s.conflict_groups_waiting.getD cgi 0 = m →
        (timedMembers net (groups.getD cgi [])).find?
          (fun tj => s.is_waiting.getD tj false) = some ti →
        output_possible net s.tokens ti = false →
        advanceGroups net groups m (cgi :: rest) s =
          .error "timed transition was fired, but output not possible for phase 2") := by
  constructor
  · intro net st ti h
    simp [fireSel, h]
  · intro net groups m rest s cgi ti h1 h2 h3
    simp only [List.getD_eq_getElem?_getD] at h1 h2
    simp [advanceGroups, h1, h2, h3]

/-- The state of netBlock after its first step: the timed transition 0 is
committed (waiting flag up, group timer 5) and the normal transition 1 has
filled the capacity-1 output place. -/
def stBlocked : NetState Int :=
  ⟨[1, 1, 0], [true, false], [5, 0], 0, 1, [0, 1], [], [], false⟩

/-- Witness for C4: in netFull the selected transition 0 has a full output
place and is skipped with a warning; in netBlock at phase-2 time the
committed timed transition 0 finds its output place full and the step
raises the fatal error. -/
theorem output_violation_paths_witness :
    (fireSel netFull (some 0) (⟨initState netFull, 0, Rng.mk []⟩ : P1 Int) =
      { s := { (initState netFull : NetState Int) with
               warnings := (initState netFull : NetState Int).warnings ++ [0] }
        num_fired := 0
        rng := Rng.mk [] }) ∧
    (advanceGroups netBlock [[0], [1]] (5 : Int) [0, 1] stBlocked =
      .error "timed transition was fired, but output not possible for phase 2") :=
  ⟨output_violation_paths.1 netFull ⟨initState netFull, 0, Rng.mk []⟩ 0 (by decide),
   output_violation_paths.2 netBlock [[0], [1]] 5 [1] stBlocked 0 0 (by decide) (by decide)
     (by decide)⟩

/-- The selected index of the Priority branch is an element of tIdxs
attaining the maximum of f over tIdxs. -/
lemma argmax_pick_spec (tIdxs : List Nat) (f : Nat → Nat) (r : Rng) (hne : tIdxs ≠ []) :
    tIdxs.getD (pickFrom ((List.range tIdxs.length).filter
        (fun k => (tIdxs.map f).getD k 0 == (tIdxs.map f).foldl max 0)) r).1 0 ∈ tIdxs ∧
    ∀ tj ∈ tIdxs, f tj ≤ f (tIdxs.getD (pickFrom ((List.range tIdxs.length).filter
        (fun k => (tIdxs.map f).getD k 0 == (tIdxs.map f).foldl max 0)) r).1 0) := by
  set ep : List Nat := (List.range tIdxs.length).filter
      (fun k => (tIdxs.map f).getD k 0 == (tIdxs.map f).foldl max 0) with hep
  have hpne : tIdxs.map f ≠ [] := fun hc => hne (List.map_eq_nil_iff.mp hc)
  have hmx_mem : (tIdxs.map f).foldl max 0 ∈ tIdxs.map f := foldl_max_zero_mem _ hpne
  obtain ⟨k, hk, hkval⟩ := List.getElem_of_mem hmx_mem
  have hk2 : k < tIdxs.length := by
    have := List.length_map tIdxs f
    omega
  have hkin : k ∈ ep := by
    refine List.mem_filter.mpr ⟨List.mem_range.mpr hk2, ?_⟩
    rw [getD_of_lt _ _ _ hk, hkval]
    exact beq_self_eq_true _
  have hepne : ep ≠ [] := List.ne_nil_of_mem hkin
  have hx1f := List.mem_filter.mp (pickFrom_mem r hepne)
  have hx1lt : (pickFrom ep r).1 < tIdxs.length := List.mem_range.mp hx1f.1
  have hx1plt : (pickFrom ep r).1 < (tIdxs.map f).length := by
    have := List.length_map tIdxs f
    omega
  have hx1val : (tIdxs.map f).getD (pickFrom ep r).1 0 = (tIdxs.map f).foldl max 0 :=
    eq_of_beq hx1f.2
  constructor
  · exact getD_mem 0 hx1lt
  · intro tj htj
    have hj : f tj ≤ (tIdxs.map f).foldl max 0 :=
      foldl_max_ge _ 0 (f tj) (List.mem_map_of_mem f htj)
    have hval : f (tIdxs.getD (pickFrom ep r).1 0) = (tIdxs.map f).foldl max 0 := by
      rw [getD_of_lt _ _ _ hx1lt]
      rw [getD_of_lt _ _ _ hx1plt] at hx1val
      rw [← hx1val]
      exact (List.getElem_map f).symm
    rw [hval]
    exact hj

/-- C5: the Priority selection of step() always returns an enabled member
of the group whose priority (Normal members counting as 0) attains the
maximum priority over the enabled members, whatever the random draw is. -/
theorem priority_selects_max (net : PetriNet) (choose_time : Nat → T)
    (tIdxs : List Nat) (w : T) (r : Rng) (hne : tIdxs ≠ []) :
    ∃ ti, (selectIdx net choose_time ConflictGroupType.Priority tIdxs w r).1 = some ti ∧
      ti ∈ tIdxs ∧
      ∀ tj ∈ tIdxs, prioOf (getTrans net tj) ≤ prioOf (getTrans net ti) := by
  have h := argmax_pick_spec tIdxs (fun ti => prioOf (getTrans net ti)) r hne
  exact ⟨_, rfl, h.1, h.2⟩

/-- Witness for C5: in netPrio both members are enabled; the selection
from any tape picks the priority-3 member, the unique maximum. -/
theorem priority_selects_max_witness :
    ∃ ti, (selectIdx netPrio delay5 ConflictGroupType.Priority [0, 1] (0 : Int)
        (Rng.mk [0])).1 = some ti ∧
      ti ∈ [0, 1] ∧
      ∀ tj ∈ [0, 1], prioOf (getTrans netPrio tj) ≤ prioOf (getTrans netPrio ti) :=
  priority_selects_max netPrio delay5 [0, 1] 0 (Rng.mk [0]) (by decide)

/-- C6 (amended): for an all-Stochastic conflict group, classification
fails exactly when two members differ in their FULL input source-place
set, inhibitor arcs included (the source compares set(i.source for i in
t.inputs) without filtering out inhibitors). -/
theorem stochastic_check_full_inputs (net : PetriNet) (g : List Nat) (t0 : Nat)
    (rest : List Nat) (hg : g = t0 :: rest)
    (hst : ∀ ti ∈ g, t_cg_type (getTrans net ti) = ConflictGroupType.Stochastic) :
    (classifyGroup net g =
        .error "all members of stochastic group must share the same inputs") ↔
      ∃ ti ∈ g, ∃ tj ∈ g,
        listSetEq (allSources (getTrans net ti)) (allSources (getTrans net tj)) = false := by
  subst hg
  have h0 : t_cg_type (getTrans net t0) = ConflictGroupType.Stochastic :=
    hst t0 (List.mem_cons_self t0 rest)
  have hmem0 : t_cg_type (getTrans net t0) ∈
      (t0 :: rest).map (fun ti => t_cg_type (getTrans net ti)) :=
    List.mem_map_of_mem _ (List.mem_cons_self t0 rest)
  have hne1 : ¬(((t0 :: rest).map (fun ti => t_cg_type (getTrans net ti))).all
      (fun tt => tt == ConflictGroupType.Normal) = true) := by
    intro hcon
    have h := List.all_eq_true.mp hcon _ hmem0
    rw [h0] at h
    exact absurd h (by decide)
  have hne2 : ¬(((t0 :: rest).map (fun ti => t_cg_type (getTrans net ti))).all
      (fun tt => tt == ConflictGroupType.Normal || tt == ConflictGroupType.Priority) = true) := by
    intro hcon
    have h := List.all_eq_true.mp hcon _ hmem0
    rw [h0] at h
    exact absurd h (by decide)
  have hne3 : ¬(((t0 :: rest).map (fun ti => t_cg_type (getTrans net ti))).all
      (fun tt => tt == ConflictGroupType.Normal || tt == ConflictGroupType.Timed) = true) := by
    intro hcon
    have h := List.all_eq_true.mp hcon _ hmem0
    rw [h0] at h
    exact absurd h (by decide)
  have hpos4 : (((t0 :: rest).map (fun ti => t_cg_type (getTrans net ti))).all
      (fun tt => tt == ConflictGroupType.Stochastic) = true) := by
    rw [List.all_eq_true]
    intro tt htt
    obtain ⟨ti, hti, he⟩ := List.mem_map.mp htt
    rw [← he, hst ti hti]
    rfl
  simp only [classifyGroup]
  rw [if_neg hne1, if_neg hne2, if_neg hne3, if_pos hpos4]
  constructor
  · intro herr
    by_cases hall : ((t0 :: rest).all (fun ti =>
        listSetEq (allSources (getTrans net ti)) (allSources (getTrans net ((t0 :: rest).headD 0))))) = true
    · rw [if_pos hall] at herr
      exact absurd herr (by intro hcon; cases hcon)
    · rw [Bool.not_eq_true, List.all_eq_false] at hall
      obtain ⟨ti, hti, hv⟩ := hall
      rw [Bool.not_eq_true] at hv
      exact ⟨ti, hti, t0, List.mem_cons_self t0 rest, hv⟩
  · rintro ⟨ti, hti, tj, htj, hv⟩
    have hall : ((t0 :: rest).all (fun ti =>
        listSetEq (allSources (getTrans net ti)) (allSources (getTrans net ((t0 :: rest).headD 0))))) = false := by
      rw [Bool.eq_false_iff]
      intro hall
      have hmem := List.all_eq_true.mp hall
      have hi := (listSetEq_iff _ _).mp (hmem ti hti)
      have hj := (listSetEq_iff _ _).mp (hmem tj htj)
      have heq : listSetEq (allSources (getTrans net ti)) (allSources (getTrans net tj)) = true := by
        rw [listSetEq_iff]
        intro x
        exact (hi x).trans (hj x).symm
      rw [heq] at hv
      cases hv
    rw [if_neg (by rw [hall]; intro hcon; cases hcon)]

/-- Witness for C6: instantiated at netStoch, whose two stochastic members
differ only by an inhibitor source. -/
theorem stochastic_check_full_inputs_witness :
    (classifyGroup netStoch [1, 0] =
        .error "all members of stochastic group must share the same inputs") ↔
      ∃ ti ∈ [1, 0], ∃ tj ∈ [1, 0],
        listSetEq (allSources (getTrans netStoch ti)) (allSources (getTrans netStoch tj)) = false :=
  stochastic_check_full_inputs netStoch [1, 0] 1 [0] rfl (by decide)

/-- C3 (amended): in a state where no transition is enabled, no group
timer is positive, ended is already true and the logs are empty, step()
changes nothing except the step counter, which it still increments
unconditionally. -/
theorem step_ended_noop (net : PetriNet) (choose_time : Nat → T) (s : NetState T) (r : Rng)
    (h1 : (computeEnabled net s).any id = false)
    (h2 : s.conflict_groups_waiting.filter (fun w => 0 < w) = [])
    (h3 : s.ended = true) (h4 : s.fired = []) (h5 : s.fired_phase2 = [])
    (h6 : s.warnings = []) :
    step net choose_time s r = .ok ({ s with step_num := s.step_num + 1 }, r) := by
  obtain ⟨tk, iw, cgw, tm, sn, fd, f2, wn, ed⟩ := s
  simp only at h1 h2 h3 h4 h5 h6
  subst h3 h4 h5 h6
  simp only [step, stepPhase1, phase1, h1, Bool.false_eq_true, if_false, h2,
    List.length_nil, lt_irrefl, false_and, if_false]
  simp [h1, h2, stepFinish]

/-- The state of netTwo after three steps: both tokens consumed, the third
step observed nothing enabled and marked the run ended. -/
def stEnded : NetState Int :=
  ⟨[0, 0], [false, false], [0, 0], 0, 3, [], [], [], true⟩

/-- Witness for C3 (amended): a step from the ended state of netTwo
returns the same state with only the step counter incremented. -/
theorem step_ended_noop_witness :
    step netTwo delay5 stEnded (Rng.mk []) =
      .ok ({ stEnded with step_num := stEnded.step_num + 1 }, Rng.mk []) :=
  step_ended_noop netTwo delay5 stEnded (Rng.mk []) (by decide) (by decide) (by decide)
    (by decide) (by decide) (by decide)

/-! ## Frame lemmas for the step pipeline -/

lemma fireSel_rest (net : PetriNet) (sel : Option Nat) (st : P1 T) :
    (fireSel net sel st).s.time = st.s.time ∧
    (fireSel net sel st).s.conflict_groups_waiting = st.s.conflict_groups_waiting ∧
    (fireSel net sel st).rng = st.rng ∧
    (fireSel net sel st).s.step_num = st.s.step_num ∧
    (fireSel net sel st).s.ended = st.s.ended ∧
    (fireSel net sel st).s.fired_phase2 = st.s.fired_phase2 := by
  cases sel with
  | none => exact ⟨rfl, rfl, rfl, rfl, rfl, rfl⟩
  | some ti =>
    simp only [fireSel]
    split
    · split
      · exact ⟨rfl, rfl, rfl, rfl, rfl, rfl⟩
      · exact ⟨rfl, rfl, rfl, rfl, rfl, rfl⟩
    · exact ⟨rfl, rfl, rfl, rfl, rfl, rfl⟩

lemma processGroup_frame (net : PetriNet) (choose_time : Nat → T) (en : List Bool)
    (groups : List (List Nat)) (types : List ConflictGroupType) (st : P1 T) (cgi : Nat) :
    (processGroup net choose_time en groups types st cgi).s.time = st.s.time ∧
    (processGroup net choose_time en groups types st cgi).s.step_num = st.s.step_num ∧
    (processGroup net choose_time en groups types st cgi).s.ended = st.s.ended ∧
    (processGroup net choose_time en groups types st cgi).s.fired_phase2 = st.s.fired_phase2 := by
  unfold processGroup
  dsimp only
  split
  · exact ⟨rfl, rfl, rfl, rfl⟩
  · have h := fireSel_rest net
      (selectIdx net choose_time (types.getD cgi .Normal)
        (groupEnabledIdxs net en (groups.getD cgi []))
        (st.s.conflict_groups_waiting.getD cgi 0) st.rng).1
      { st with
        s := { st.s with
               conflict_groups_waiting :=
                 st.s.conflict_groups_waiting.set cgi
                   (selectIdx net choose_time (types.getD cgi .Normal)
                     (groupEnabledIdxs net en (groups.getD cgi []))
                     (st.s.conflict_groups_waiting.getD cgi 0) st.rng).2.1 }
        rng := (selectIdx net choose_time (types.getD cgi .Normal)
          (groupEnabledIdxs net en (groups.getD cgi []))
          (st.s.conflict_groups_waiting.getD cgi 0) st.rng).2.2 }
    exact ⟨h.1, h.2.2.2.1, h.2.2.2.2.1, h.2.2.2.2.2⟩

lemma foldl_processGroup_frame (net : PetriNet) (choose_time : Nat → T) (en : List Bool)
    (groups : List (List Nat)) (types : List ConflictGroupType) (l : List Nat) (st : P1 T) :
    ((l.foldl (processGroup net choose_time en groups types) st).s.time = st.s.time) ∧
    ((l.foldl (processGroup net choose_time en groups types) st).s.step_num = st.s.step_num) ∧
    ((l.foldl (processGroup net choose_time en groups types) st).s.ended = st.s.ended) ∧
    ((l.foldl (processGroup net choose_time en groups types) st).s.fired_phase2 =
      st.s.fired_phase2) := by
  induction l generalizing st with
  | nil => exact ⟨rfl, rfl, rfl, rfl⟩
  | cons c cs ih =>
    have h1 := processGroup_frame net choose_time en groups types st c
    have h2 := ih (processGroup net choose_time en groups types st c)
    rw [List.foldl_cons]
    exact ⟨h2.1.trans h1.1, h2.2.1.trans h1.2.1, h2.2.2.1.trans h1.2.2.1,
      h2.2.2.2.trans h1.2.2.2⟩

lemma stepPhase1_frame (net : PetriNet) (choose_time : Nat → T) (s : NetState T) (r : Rng) :
    (stepPhase1 net choose_time s r).s.time = s.time ∧
    (stepPhase1 net choose_time s r).s.step_num = s.step_num ∧
    (stepPhase1 net choose_time s r).s.ended = s.ended ∧
    (stepPhase1 net choose_time s r).s.fired_phase2 = [] := by
  unfold stepPhase1 phase1
  dsimp only
  split
  · exact foldl_processGroup_frame net choose_time _ _ _ _ _
  · exact ⟨rfl, rfl, rfl, rfl⟩

lemma advanceGroups_frame (net : PetriNet) (groups : List (List Nat)) (m : T)
    (cgis : List Nat) (s s2 : NetState T)
    (h : advanceGroups net groups m cgis s = .ok s2) :
    s2.time = s.time ∧ s2.fired = s.fired ∧ s2.step_num = s.step_num ∧ s2.ended = s.ended := by
  induction cgis generalizing s with
  | nil =>
    unfold advanceGroups at h
    injection h with h
    subst h
    exact ⟨rfl, rfl, rfl, rfl⟩
  | cons c cs ih =>
    unfold advanceGroups at h
    split at h
    · split at h
      · have hh := ih _ h
        exact hh
      · split at h
        · have hh := ih _ h
          exact hh
        · exact Except.noConfusion h
    · exact ih _ h

lemma advance_rest (net : PetriNet) (groups : List (List Nat)) (s s2 : NetState T)
    (h : advance net groups s = .ok s2) :
    s2.time = s.time + minPos s.conflict_groups_waiting ∧
    s2.fired = s.fired ∧ s2.step_num = s.step_num ∧ s2.ended = s.ended := by
  unfold advance at h
  dsimp only at h
  split at h
  · exact Except.noConfusion h
  · next s1 heq =>
    injection h with h
    subst h
    have hf := advanceGroups_frame net groups (minPos s.conflict_groups_waiting)
      (List.range groups.length) _ _ heq
    exact ⟨hf.1, hf.2.1, hf.2.2.1, hf.2.2.2⟩

lemma stepFinish_rest (enabled_any : Bool) (num_waiting : Nat) (s1 : NetState T) :
    (stepFinish enabled_any num_waiting s1).time = s1.time ∧
    (stepFinish enabled_any num_waiting s1).tokens = s1.tokens ∧
    (stepFinish enabled_any num_waiting s1).is_waiting = s1.is_waiting ∧
    (stepFinish enabled_any num_waiting s1).conflict_groups_waiting =
      s1.conflict_groups_waiting ∧
    (stepFinish enabled_any num_waiting s1).fired = s1.fired ∧
    (stepFinish enabled_any num_waiting s1).fired_phase2 = s1.fired_phase2 ∧
    (stepFinish enabled_any num_waiting s1).step_num = s1.step_num + 1 := by
  unfold stepFinish
  dsimp only
  split
  · exact ⟨rfl, rfl, rfl, rfl, rfl, rfl, rfl⟩
  · exact ⟨rfl, rfl, rfl, rfl, rfl, rfl, rfl⟩

/-- Decomposition of a successful step() into its two branches. -/
lemma step_ok_cases (net : PetriNet) (choose_time : Nat → T) (s : NetState T) (r : Rng)
    (s1 : NetState T) (r1 : Rng) (h : step net choose_time s r = .ok (s1, r1)) :
    r1 = (stepPhase1 net choose_time s r).rng ∧
    ∃ sa, s1 = stepFinish ((computeEnabled net s).any id)
        (((stepPhase1 net choose_time s r).s.conflict_groups_waiting.filter
          (fun w => 0 < w)).length) sa ∧
      (((0 < ((stepPhase1 net choose_time s r).s.conflict_groups_waiting.filter
            (fun w => 0 < w)).length ∧ (stepPhase1 net choose_time s r).num_fired = 0) ∧
        advance net (makeConflictGroups net.transitions)
          (stepPhase1 net choose_time s r).s = .ok sa) ∨
       (¬(0 < ((stepPhase1 net choose_time s r).s.conflict_groups_waiting.filter
            (fun w => 0 < w)).length ∧ (stepPhase1 net choose_time s r).num_fired = 0) ∧
        sa = (stepPhase1 net choose_time s r).s)) := by
  unfold step at h
  dsimp only at h
  by_cases hc : 0 < ((stepPhase1 net choose_time s r).s.conflict_groups_waiting.filter
      (fun w => 0 < w)).length ∧ (stepPhase1 net choose_time s r).num_fired = 0
  · rw [if_pos hc] at h
    cases hA : advance net (makeConflictGroups net.transitions)
        (stepPhase1 net choose_time s r).s with
    | error e => rw [hA] at h; exact Except.noConfusion h
    | ok sa =>
      rw [hA] at h
      injection h with h
      injection h with h1 h2
      exact ⟨h2.symm, sa, h1.symm, Or.inl ⟨hc, rfl⟩⟩
  · rw [if_neg hc] at h
    injection h with h
    injection h with h1 h2
    exact ⟨h2.symm, (stepPhase1 net choose_time s r).s, h1.symm, Or.inr ⟨hc, rfl⟩⟩

/-- C10: the simulation clock starts at 0 and never decreases: each step()
either leaves it unchanged or advances it by the minimum positive group
waiting timer of the post-phase-1 state, which is strictly positive. -/
theorem clock_monotone (net : PetriNet) (choose_time : Nat → T) (s : NetState T) (r : Rng)
    (s1 : NetState T) (r1 : Rng) (h : step net choose_time s r = .ok (s1, r1)) :
    (initState net : NetState T).time = 0 ∧
    s.time ≤ s1.time ∧
    (s1.time = s.time ∨
      (0 < minPos (stepPhase1 net choose_time s r).s.conflict_groups_waiting ∧
        s1.time = s.time + minPos (stepPhase1 net choose_time s r).s.conflict_groups_waiting)) := by
  have hpt : (stepPhase1 net choose_time s r).s.time = s.time :=
    (stepPhase1_frame net choose_time s r).1
  obtain ⟨hr, sa, hs1, hcase⟩ := step_ok_cases net choose_time s r s1 r1 h
  have ht : s1.time = sa.time := by
    rw [hs1]
    exact (stepFinish_rest _ _ sa).1
  have hd : s1.time = s.time ∨
      (0 < minPos (stepPhase1 net choose_time s r).s.conflict_groups_waiting ∧
        s1.time = s.time + minPos (stepPhase1 net choose_time s r).s.conflict_groups_waiting) := by
    rcases hcase with ⟨hc, hA⟩ | ⟨hc, hA⟩
    · have hadv := advance_rest net (makeConflictGroups net.transitions) _ _ hA
      have hpos : 0 < minPos (stepPhase1 net choose_time s r).s.conflict_groups_waiting := by
        apply minPos_pos
        intro hnil
        rw [hnil] at hc
        simp at hc
      refine Or.inr ⟨hpos, ?_⟩
      rw [ht, hadv.1, hpt]
    · rw [ht, hA, hpt]
      exact Or.inl rfl
  refine ⟨rfl, ?_, hd⟩
  rcases hd with he | ⟨hpos, he⟩
  · exact he.ge
  · rw [he]
    exact le_add_of_nonneg_right (le_of_lt hpos)

/-- Witness for C10: the phase-2 step of netTimed advances the clock from
0 to 5, the unique positive waiting timer. -/
theorem clock_monotone_witness :
    (initState netTimed : NetState Int).time = 0 ∧
    (⟨[1, 0], [true], [5], 0, 1, [0], [], [], false⟩ : NetState Int).time ≤
      (⟨[0, 1], [false], [0], 5, 2, [], [0], [], false⟩ : NetState Int).time ∧
    ((⟨[0, 1], [false], [0], 5, 2, [], [0], [], false⟩ : NetState Int).time =
      (⟨[1, 0], [true], [5], 0, 1, [0], [], [], false⟩ : NetState Int).time ∨
      (0 < minPos (stepPhase1 netTimed delay5
          (⟨[1, 0], [true], [5], 0, 1, [0], [], [], false⟩ : NetState Int)
          (Rng.mk [])).s.conflict_groups_waiting ∧
        (⟨[0, 1], [false], [0], 5, 2, [], [0], [], false⟩ : NetState Int).time =
          (⟨[1, 0], [true], [5], 0, 1, [0], [], [], false⟩ : NetState Int).time +
            minPos (stepPhase1 netTimed delay5
              (⟨[1, 0], [true], [5], 0, 1, [0], [], [], false⟩ : NetState Int)
              (Rng.mk [])).s.conflict_groups_waiting)) :=
  clock_monotone netTimed delay5 ⟨[1, 0], [true], [5], 0, 1, [0], [], [], false⟩ (Rng.mk [])
    ⟨[0, 1], [false], [0], 5, 2, [], [0], [], false⟩ (Rng.mk []) (by decide)

/-! ## Global random-tape consumption -/

lemma pickFrom_tape (l : List Nat) (r : Rng) : (pickFrom l r).2.tape = r.tape.drop 1 := by
  simp [pickFrom, draw, List.drop_one]

lemma selectIdx_tape (net : PetriNet) (choose_time : Nat → T) (cgt : ConflictGroupType)
    (tIdxs : List Nat) (w : T) (r : Rng) :
    ∃ k, (selectIdx net choose_time cgt tIdxs w r).2.2.tape = r.tape.drop k := by
  cases cgt with
  | Normal => exact ⟨1, pickFrom_tape tIdxs r⟩
  | Priority =>
    exact ⟨1, pickFrom_tape ((List.range tIdxs.length).filter
      (fun k => ((tIdxs.map (fun ti => prioOf (getTrans net ti))).getD k 0 ==
        (tIdxs.map (fun ti => prioOf (getTrans net ti))).foldl max 0))) r⟩
  | Stochastic => exact ⟨1, pickFrom_tape tIdxs r⟩
  | Timed =>
    unfold selectIdx
    dsimp only
    split
    · split
      · exact ⟨1, pickFrom_tape (tIdxs.filter (fun ti => isTimed (getTrans net ti))) r⟩
      · exact ⟨1, pickFrom_tape (tIdxs.filter (fun ti => !(isTimed (getTrans net ti)))) r⟩
    · exact ⟨0, rfl⟩

lemma processGroup_tape (net : PetriNet) (choose_time : Nat → T) (en : List Bool)
    (groups : List (List Nat)) (types : List ConflictGroupType) (st : P1 T) (cgi : Nat) :
    ∃ k, (processGroup net choose_time en groups types st cgi).rng.tape =
      st.rng.tape.drop k := by
  unfold processGroup
  dsimp only
  split
  · exact ⟨0, rfl⟩
  · obtain ⟨k, hk⟩ := selectIdx_tape net choose_time (types.getD cgi .Normal)
      (groupEnabledIdxs net en (groups.getD cgi []))
      (st.s.conflict_groups_waiting.getD cgi 0) st.rng
    refine ⟨k, ?_⟩
    rw [(fireSel_rest net _ _).2.2.1]
    exact hk

lemma foldl_processGroup_tape (net : PetriNet) (choose_time : Nat → T) (en : List Bool)
    (groups : List (List Nat)) (types : List ConflictGroupType) (l : List Nat) (st : P1 T) :
    ∃ k, ((l.foldl (processGroup net choose_time en groups types) st).rng.tape =
      st.rng.tape.drop k) := by
  induction l generalizing st with
  | nil => exact ⟨0, rfl⟩
  | cons c cs ih =>
    obtain ⟨k1, hk1⟩ := processGroup_tape net choose_time en groups types st c
    obtain ⟨k2, hk2⟩ := ih (processGroup net choose_time en groups types st c)
    refine ⟨k1 + k2, ?_⟩
    rw [List.foldl_cons, hk2, hk1, List.drop_drop]

lemma stepPhase1_tape (net : PetriNet) (choose_time : Nat → T) (s : NetState T) (r : Rng) :
    ∃ k, (stepPhase1 net choose_time s r).rng.tape = r.tape.drop k := by
  unfold stepPhase1 phase1
  dsimp only
  split
  · exact foldl_processGroup_tape net choose_time _ _ _ _ _
  · exact ⟨0, rfl⟩

/-- C9 (amended): every random pick of step() consumes the front of the
single process-global generator tape — a successful step returns the
global tape with a prefix dropped, so a run is reproducible for a fixed
seed only while no other consumer draws from the generator; and a second
instance of the very same network stepping in between does perturb the
first instance's fired sequence (the concrete netPair interleaving). -/
theorem rng_global_consumption (net : PetriNet) (choose_time : Nat → T) (s : NetState T)
    (r : Rng) (s1 : NetState T) (r1 : Rng) (h : step net choose_time s r = .ok (s1, r1)) :
    (∃ k, r1.tape = r.tape.drop k) ∧
    interleavedPair netPair delay5 (Rng.mk [0, 1]) ≠ soloPair netPair delay5 (Rng.mk [0, 1]) := by
  obtain ⟨hr, -⟩ := step_ok_cases net choose_time s r s1 r1 h
  obtain ⟨k, hk⟩ := stepPhase1_tape net choose_time s r
  refine ⟨⟨k, ?_⟩, by decide⟩
  rw [hr]
  exact hk

/-- Witness for C9 (amended): the first step of netPair from tape [0, 1]
consumes one draw, leaving tape [1]. -/
theorem rng_global_consumption_witness :
    (∃ k, (Rng.mk [1]).tape = (Rng.mk [0, 1]).tape.drop k) ∧
    interleavedPair netPair delay5 (Rng.mk [0, 1]) ≠ soloPair netPair delay5 (Rng.mk [0, 1]) :=
  rng_global_consumption netPair delay5 (initState netPair) (Rng.mk [0, 1])
    ⟨[9], [false, false], [0], 0, 1, [0], [], [], false⟩ (Rng.mk [1]) (by decide)

/-! ## Soundness of the conflict grouping -/

lemma tOverlap_comm (a b : Transition) (h : tOverlap a b = true) : tOverlap b a = true := by
  unfold tOverlap at h ⊢
  simp only [List.any_eq_true, List.contains_eq_any_beq, beq_iff_eq] at h ⊢
  obtain ⟨p, hp, q, hq, he⟩ := h
  exact ⟨q, hq, p, hp, he.symm⟩

lemma sharesInput_symmetric (ts : List Transition) : Symmetric (sharesInput ts) :=
  fun _ _ h => tOverlap_comm _ _ h

lemma sharesChain_symm (ts : List Transition) {i j : Nat} (h : sharesChain ts i j) :
    sharesChain ts j i :=
  Relation.ReflTransGen.symmetric (sharesInput_symmetric ts) h

/-- Every group a single addToGroups step produces is pairwise
chain-connected, provided the incoming groups are. -/
lemma addToGroups_connected (ts : List Transition) (ti : Nat) (gs : List (List Nat))
    (h : ∀ g ∈ gs, ∀ i ∈ g, ∀ j ∈ g, sharesChain ts i j) :
    ∀ g ∈ addToGroups ts ti gs, ∀ i ∈ g, ∀ j ∈ g, sharesChain ts i j := by
  induction gs with
  | nil =>
    intro g hg
    simp only [addToGroups, List.mem_singleton] at hg
    subst hg
    intro i hi j hj
    rw [List.mem_singleton] at hi hj
    subst hi; subst hj
    exact Relation.ReflTransGen.refl
  | cons g0 gs ih =>
    intro g hg
    unfold addToGroups at hg
    by_cases hov : g0.any (fun tj => tOverlap (ts.getD ti default) (ts.getD tj default)) = true
    · rw [if_pos hov] at hg
      rcases List.mem_cons.mp hg with rfl | hmem
      · obtain ⟨tj, htj, hovj⟩ := List.any_eq_true.mp hov
        have hbase : sharesChain ts ti tj := Relation.ReflTransGen.single hovj
        have hg0 : ∀ i ∈ g0, ∀ j ∈ g0, sharesChain ts i j := h g0 (List.mem_cons_self _ _)
        intro i hi j hj
        rcases List.mem_cons.mp hi with rfl | hi0
        · rcases List.mem_cons.mp hj with rfl | hj0
          · exact Relation.ReflTransGen.refl
          · exact hbase.trans (hg0 tj htj j hj0)
        · rcases List.mem_cons.mp hj with rfl | hj0
          · exact (hg0 i hi0 tj htj).trans (sharesChain_symm ts hbase)
          · exact hg0 i hi0 j hj0
      · exact h g (List.mem_cons_of_mem _ hmem)
    · rw [if_neg hov] at hg
      rcases List.mem_cons.mp hg with rfl | hmem
      · exact h g (List.mem_cons_self _ _)
      · exact ih (fun g2 hg2 => h g2 (List.mem_cons_of_mem _ hg2)) g hmem

lemma foldl_addToGroups_connected (ts : List Transition) (l : List Nat)
    (gs : List (List Nat)) (h : ∀ g ∈ gs, ∀ i ∈ g, ∀ j ∈ g, sharesChain ts i j) :
    ∀ g ∈ l.foldl (fun gs ti => addToGroups ts ti gs) gs,
      ∀ i ∈ g, ∀ j ∈ g, sharesChain ts i j := by
  induction l generalizing gs with
  | nil => exact h
  | cons c cs ih => exact ih _ (addToGroups_connected ts c gs h)

/-- C1 (amended): the grouping of _make_conflict_groups is sound — any two
transitions placed in the same conflict group are connected through a
chain of shared ordinary input places.  (It is not complete: groups are
never merged, so a transition sharing a place with an earlier-captured
bridge can land in a different group, as the counterexample shows.) -/
theorem conflict_groups_sound (ts : List Transition) :
    ∀ g ∈ makeConflictGroups ts, ∀ i ∈ g, ∀ j ∈ g, sharesChain ts i j := by
  unfold makeConflictGroups
  exact foldl_addToGroups_connected ts _ [] (by intro g hg; cases hg)

/-- Witness for C1 (amended): transitions 2 and 0 of netBridge share a
group, and they are chain-connected. -/
theorem conflict_groups_sound_witness : sharesChain netBridge.transitions 2 0 :=
  conflict_groups_sound netBridge.transitions [2, 0] (by decide) 2 (by decide) 0 (by decide)

/-! ## Group mutual exclusion -/

lemma mem_of_contains {l : List Nat} {x : Nat} (h : l.contains x = true) : x ∈ l := by
  simp only [List.contains_eq_any_beq, List.any_eq_true, beq_iff_eq] at h
  obtain ⟨y, hy, he⟩ := h
  exact he ▸ hy

lemma addToGroups_flatten_perm (ts : List Transition) (ti : Nat) (gs : List (List Nat)) :
    (addToGroups ts ti gs).flatten.Perm (ti :: gs.flatten) := by
  induction gs with
  | nil => exact List.Perm.refl _
  | cons g0 gs ih =>
    unfold addToGroups
    split
    · exact List.Perm.refl _
    · simp only [List.flatten_cons]
      exact List.Perm.trans (List.Perm.append_left g0 ih) List.perm_middle

lemma foldl_flatten_nodup (ts : List Transition) (l : List Nat) (gs : List (List Nat))
    (hnd : gs.flatten.Nodup) (hdisj : ∀ x ∈ gs.flatten, x ∉ l) (hl : l.Nodup) :
    (l.foldl (fun gs ti => addToGroups ts ti gs) gs).flatten.Nodup := by
  induction l generalizing gs with
  | nil => exact hnd
  | cons c cs ih =>
    rw [List.foldl_cons]
    have hperm := addToGroups_flatten_perm ts c gs
    have hcn : c ∉ gs.flatten := fun hc => hdisj c hc (List.mem_cons_self _ _)
    apply ih
    · exact hperm.symm.nodup (List.nodup_cons.mpr ⟨hcn, hnd⟩)
    · intro x hx
      have hx1 : x ∈ c :: gs.flatten := hperm.subset hx
      rcases List.mem_cons.mp hx1 with rfl | hx2
      · exact (List.nodup_cons.mp hl).1
      · intro hxc
        exact hdisj x hx2 (List.mem_cons_of_mem _ hxc)
    · exact (List.nodup_cons.mp hl).2

lemma makeConflictGroups_flatten_nodup (ts : List Transition) :
    (makeConflictGroups ts).flatten.Nodup := by
  unfold makeConflictGroups
  exact foldl_flatten_nodup ts _ [] (by simp) (by simp) (List.nodup_range _)

/-- The conflict groups are pairwise disjoint: a transition index belongs
to the group at one position only. -/
lemma groups_disjoint (ts : List Transition) :
    ∀ i j, i ≠ j → ∀ x, x ∈ (makeConflictGroups ts).getD i [] →
      x ∉ (makeConflictGroups ts).getD j [] := by
  have hp := (List.nodup_flatten.mp (makeConflictGroups_flatten_nodup ts)).2
  intro i j hij x hxi hxj
  by_cases hi : i < (makeConflictGroups ts).length
  · by_cases hj : j < (makeConflictGroups ts).length
    · rw [getD_of_lt _ _ _ hi] at hxi
      rw [getD_of_lt _ _ _ hj] at hxj
      rcases Nat.lt_or_ge i j with hlt | hge
      · exact (List.pairwise_iff_getElem.mp hp) i j hi hj hlt hxi hxj
      · have hlt2 : j < i := Nat.lt_of_le_of_ne hge (Ne.symm hij)
        exact (List.pairwise_iff_getElem.mp hp) j i hj hi hlt2 hxj hxi
    · rw [List.getD_eq_getElem?_getD, List.getElem?_eq_none (Nat.le_of_not_lt hj)] at hxj
      simp at hxj
  · rw [List.getD_eq_getElem?_getD, List.getElem?_eq_none (Nat.le_of_not_lt hi)] at hxi
    simp at hxi

lemma countIn_append (g l : List Nat) (ti : Nat) :
    ((l ++ [ti]).filter (fun x => g.contains x)).length =
      (l.filter (fun x => g.contains x)).length + (if g.contains ti then 1 else 0) := by
  rw [List.filter_append, List.length_append]
  congr 1
  rw [List.filter_cons]
  split
  · rfl
  · rfl

lemma groupEnabledIdxs_subset (net : PetriNet) (en : List Bool) (g : List Nat) (x : Nat)
    (h : x ∈ groupEnabledIdxs net en g) : x ∈ g := by
  unfold groupEnabledIdxs at h
  have h2 := (List.mem_filter.mp h).2
  exact mem_of_contains ((Bool.and_eq_true _ _).mp h2).1

lemma selectIdx_mem (net : PetriNet) (choose_time : Nat → T) (cgt : ConflictGroupType)
    (tIdxs : List Nat) (w : T) (r : Rng) (hne : tIdxs ≠ []) (ti : Nat)
    (h : (selectIdx net choose_time cgt tIdxs w r).1 = some ti) : ti ∈ tIdxs := by
  cases cgt with
  | Normal =>
    simp only [selectIdx] at h
    injection h with h
    exact h ▸ pickFrom_mem r hne
  | Stochastic =>
    simp only [selectIdx] at h
    injection h with h
    exact h ▸ pickFrom_mem r hne
  | Priority =>
    have hsp := argmax_pick_spec tIdxs (fun k => prioOf (getTrans net k)) r hne
    simp only [selectIdx] at h
    injection h with h
    exact h ▸ hsp.1
  | Timed =>
    unfold selectIdx at h
    dsimp only at h
    split at h
    · split at h
      · next hempty =>
        injection h with h
        have htne : tIdxs.filter (fun k => isTimed (getTrans net k)) ≠ [] := by
          obtain ⟨x, xs, hx⟩ := List.exists_cons_of_ne_nil hne
          have hall := List.filter_eq_nil_iff.mp (List.isEmpty_iff.mp hempty)
          have hxt : isTimed (getTrans net x) = true := by
            have := hall x (hx ▸ List.mem_cons_self x xs)
            simpa using this
          intro hcon
          have := List.filter_eq_nil_iff.mp hcon x (hx ▸ List.mem_cons_self x xs)
          exact this hxt
        have hmem := pickFrom_mem r htne
        rw [h] at hmem
        exact (List.filter_sublist _).subset hmem
      · injection h with h
        have hnne : tIdxs.filter (fun k => !(isTimed (getTrans net k))) ≠ [] := by
          next hempty =>
          intro hcon
          rw [List.isEmpty_iff] at hempty
          exact hempty hcon
        have hmem := pickFrom_mem r hnne
        rw [h] at hmem
        exact (List.filter_sublist _).subset hmem
    · exact Option.noConfusion h

lemma fireSel_fired_cases (net : PetriNet) (sel : Option Nat) (st : P1 T) :
    (fireSel net sel st).s.fired = st.s.fired ∨
    ∃ ti, sel = some ti ∧ (fireSel net sel st).s.fired = st.s.fired ++ [ti] := by
  cases sel with
  | none => exact Or.inl rfl
  | some ti =>
    simp only [fireSel]
    split
    · split
      · exact Or.inr ⟨ti, rfl, rfl⟩
      · exact Or.inr ⟨ti, rfl, rfl⟩
    · exact Or.inl rfl

lemma processGroup_fired (net : PetriNet) (choose_time : Nat → T) (en : List Bool)
    (groups : List (List Nat)) (types : List ConflictGroupType) (st : P1 T) (cgi : Nat) :
    (processGroup net choose_time en groups types st cgi).s.fired = st.s.fired ∨
    ∃ ti, ti ∈ groups.getD cgi [] ∧
      (processGroup net choose_time en groups types st cgi).s.fired = st.s.fired ++ [ti] := by
  unfold processGroup
  dsimp only
  split
  · exact Or.inl rfl
  · next hne =>
    have hne2 : groupEnabledIdxs net en (groups.getD cgi []) ≠ [] := by
      intro hcon
      rw [hcon] at hne
      exact hne rfl
    rcases fireSel_fired_cases net
        (selectIdx net choose_time (types.getD cgi .Normal)
          (groupEnabledIdxs net en (groups.getD cgi []))
          (st.s.conflict_groups_waiting.getD cgi 0) st.rng).1
        { st with
          s := { st.s with
                 conflict_groups_waiting :=
                   st.s.conflict_groups_waiting.set cgi
                     (selectIdx net choose_time (types.getD cgi .Normal)
                       (groupEnabledIdxs net en (groups.getD cgi []))
                       (st.s.conflict_groups_waiting.getD cgi 0) st.rng).2.1 }
          rng := (selectIdx net choose_time (types.getD cgi .Normal)
            (groupEnabledIdxs net en (groups.getD cgi []))
            (st.s.conflict_groups_waiting.getD cgi 0) st.rng).2.2 } with
      hcase | ⟨ti, hsel, hcase⟩
    · exact Or.inl hcase
    · refine Or.inr ⟨ti, ?_, hcase⟩
      have hmem := selectIdx_mem net choose_time (types.getD cgi .Normal)
        (groupEnabledIdxs net en (groups.getD cgi []))
        (st.s.conflict_groups_waiting.getD cgi 0) st.rng hne2 ti hsel
      exact groupEnabledIdxs_subset net en _ ti hmem

lemma foldl_count (net : PetriNet) (choose_time : Nat → T) (en : List Bool)
    (groups : List (List Nat)) (types : List ConflictGroupType) (l : List Nat)
    (st : P1 T) (j : Nat)
    (hdisj : ∀ i k, i ≠ k → ∀ x, x ∈ groups.getD i [] → x ∉ groups.getD k [])
    (hl : l.Nodup) :
    (((l.foldl (processGroup net choose_time en groups types) st).s.fired.filter
        (fun x => (groups.getD j []).contains x)).length) ≤
      ((st.s.fired.filter (fun x => (groups.getD j []).contains x)).length) +
        (if j ∈ l then 1 else 0) := by
  induction l generalizing st with
  | nil => simp
  | cons c cs ih =>
    rw [List.foldl_cons]
    have hnd := List.nodup_cons.mp hl
    have ihc := ih (processGroup net choose_time en groups types st c) hnd.2
    rcases processGroup_fired net choose_time en groups types st c with hcase | ⟨ti, hmem, hcase⟩
    · rw [hcase] at ihc
      refine le_trans ihc ?_
      have hle : (if j ∈ cs then 1 else 0) ≤ (if j ∈ c :: cs then 1 else 0) := by
        by_cases hj : j ∈ cs
        · simp [hj, List.mem_cons_of_mem c hj]
        · simp [hj]
      omega
    · rw [hcase, countIn_append] at ihc
      by_cases hcj : c = j
      · subst hcj
        have hjn : c ∉ cs := hnd.1
        rw [if_neg hjn] at ihc
        have hjc : c ∈ c :: cs := List.mem_cons_self _ _
        rw [if_pos hjc]
        have hone : (if (groups.getD c []).contains ti = true then 1 else 0) ≤ 1 := by
          split
          · exact le_refl 1
          · exact Nat.zero_le 1
        omega
      · have hnoti : (groups.getD j []).contains ti = false := by
          by_cases hc : (groups.getD j []).contains ti = true
          · exact absurd (hdisj c j hcj ti hmem (mem_of_contains hc)) (by simp)
          · exact Bool.eq_false_iff.mpr hc
        rw [hnoti] at ihc
        simp only [Bool.false_eq_true, if_false] at ihc
        refine le_trans ihc ?_
        have hle : (if j ∈ cs then 1 else 0) ≤ (if j ∈ c :: cs then 1 else 0) := by
          by_cases hj : j ∈ cs
          · simp [hj, List.mem_cons_of_mem c hj]
          · simp [hj]
        omega

/-- C8: within a single step() at most one transition per conflict group
is fired immediately (recorded in the fired log; phase-2 firings go to the
separate fired_phase2 log), while transitions in distinct groups can fire
in the same step, as the two independent groups of netTwo do. -/
theorem group_mutual_exclusion (net : PetriNet) (choose_time : Nat → T) (s : NetState T)
    (r : Rng) (s1 : NetState T) (r1 : Rng) (h : step net choose_time s r = .ok (s1, r1)) :
    (∀ g ∈ makeConflictGroups net.transitions,
      (s1.fired.filter (fun x => g.contains x)).length ≤ 1) ∧
    (step netTwo delay5 (initState netTwo) (Rng.mk [0, 0])).map
      (fun x => x.1.fired) = .ok [0, 1] := by
  refine ⟨?_, by decide⟩
  intro g hg
  obtain ⟨j, hj, hje⟩ := List.getElem_of_mem hg
  have hgj : (makeConflictGroups net.transitions).getD j [] = g := by
    rw [getD_of_lt _ _ _ hj, hje]
  obtain ⟨hr, sa, hs1, hcase⟩ := step_ok_cases net choose_time s r s1 r1 h
  have hf1 : s1.fired = sa.fired := by
    rw [hs1]
    exact (stepFinish_rest _ _ sa).2.2.2.2.1
  have hf2 : sa.fired = (stepPhase1 net choose_time s r).s.fired := by
    rcases hcase with ⟨hc, hA⟩ | ⟨hc, he⟩
    · exact (advance_rest net _ _ _ hA).2.1
    · rw [he]
  rw [hf1, hf2, ← hgj]
  unfold stepPhase1 phase1
  dsimp only
  split
  · have hcount := foldl_count net choose_time
      (computeEnabled net { s with fired := [], fired_phase2 := [], warnings := [] })
      (makeConflictGroups net.transitions) (groupTypes net)
      (List.range (makeConflictGroups net.transitions).length)
      ⟨{ s with fired := [], fired_phase2 := [], warnings := [] }, 0, r⟩ j
      (groups_disjoint net.transitions) (List.nodup_range _)
    refine le_trans hcount ?_
    have hz : ((({ s with fired := [], fired_phase2 := [], warnings := [] } :
        NetState T).fired.filter (fun x =>
          ((makeConflictGroups net.transitions).getD j []).contains x)).length) = 0 := rfl
    rw [hz]
    split
    · exact le_refl 1
    · exact Nat.zero_le 1
  · exact Nat.zero_le 1

/-- Witness for C8: the two-group net fires one transition in each group
in a single step. -/
theorem group_mutual_exclusion_witness :
    (∀ g ∈ makeConflictGroups netTwo.transitions,
      (((⟨[0, 0], [false, false], [0, 0], 0, 1, [0, 1], [], [], false⟩ :
        NetState Int).fired.filter (fun x => g.contains x)).length ≤ 1)) ∧
    (step netTwo delay5 (initState netTwo) (Rng.mk [0, 0])).map
      (fun x => x.1.fired) = .ok [0, 1] :=
  group_mutual_exclusion netTwo delay5 (initState netTwo) (Rng.mk [0, 0])
    ⟨[0, 0], [false, false], [0, 0], 0, 1, [0, 1], [], [], false⟩ (Rng.mk []) (by decide)

/-! ## The timed advance -/

lemma getD_of_ge {α : Type} (l : List α) (i : Nat) (d : α) (h : l.length ≤ i) :
    l.getD i d = d := by
  rw [List.getD_eq_getElem?_getD, List.getElem?_eq_none h]
  rfl

lemma getD_set_ne2 {α : Type} (l : List α) (i j : Nat) (x d : α) (h : i ≠ j) :
    (l.set i x).getD j d = l.getD j d := by
  rw [List.getD_eq_getElem?_getD, List.getD_eq_getElem?_getD, List.getElem?_set_ne h]

lemma getD_set_zero_self (l : List T) (i : Nat) : (l.set i (0 : T)).getD i 0 = 0 := by
  by_cases h : i < l.length
  · rw [List.getD_eq_getElem?_getD, List.getElem?_set_self h]
    rfl
  · rw [getD_of_ge _ _ _ (by simpa using Nat.le_of_not_lt h)]

lemma getD_map_max (l : List T) (m : T) (i : Nat) (hm : 0 ≤ m) :
    (l.map (fun w => max (w - m) 0)).getD i 0 = max (l.getD i 0 - m) 0 := by
  by_cases h : i < l.length
  · rw [getD_of_lt _ _ _ (by simpa using h), getD_of_lt _ _ _ h, List.getElem_map]
  · rw [getD_of_ge _ _ _ (by simpa using Nat.le_of_not_lt h),
      getD_of_ge _ _ _ (Nat.le_of_not_lt h), zero_sub]
    exact (max_eq_right (neg_nonpos.mpr hm)).symm

lemma find?_congr2 {α : Type} (p q : α → Bool) (l : List α) (h : ∀ x ∈ l, p x = q x) :
    l.find? p = l.find? q := by
  induction l with
  | nil => rfl
  | cons a l ih =>
    have ha := h a (List.mem_cons_self _ _)
    rw [List.find?_cons, List.find?_cons, ha]
    cases hqa : q a
    · exact ih (fun x hx => h x (List.mem_cons_of_mem _ hx))
    · rfl

lemma timedMembers_subset (net : PetriNet) (g : List Nat) (x : Nat)
    (h : x ∈ timedMembers net g) : x ∈ g := by
  unfold timedMembers at h
  exact mem_of_contains ((Bool.and_eq_true _ _).mp (List.mem_filter.mp h).2).1

lemma timedMembers_nil (net : PetriNet) : timedMembers net [] = [] := by
  unfold timedMembers
  apply List.filter_eq_nil_iff.mpr
  intro a _
  simp [List.contains]

/-- Behaviour of the phase-2 group loop on success: it appends to the
fired_phase2 log only, touches waiting timers only at the processed group
indices, touches waiting flags only inside the processed groups, zeroes
the timer of every processed group sitting at the minimum and fires its
first waiting timed member, and leaves the timer of every other processed
group alone. -/
lemma advanceGroups_spec (net : PetriNet) (groups : List (List Nat)) (m : T)
    (hdisj : ∀ i k, i ≠ k → ∀ x, x ∈ groups.getD i [] → x ∉ groups.getD k []) :
    ∀ (cgis : List Nat) (s s2 : NetState T), cgis.Nodup →
      advanceGroups net groups m cgis s = .ok s2 →
      (∃ ext, s2.fired_phase2 = s.fired_phase2 ++ ext) ∧
      (∀ j, j ∉ cgis →
        s2.conflict_groups_waiting.getD j 0 = s.conflict_groups_waiting.getD j 0) ∧
      (∀ x, (∀ cgi ∈ cgis, x ∉ groups.getD cgi []) →
        s2.is_waiting.getD x false = s.is_waiting.getD x false) ∧
      (∀ cgi ∈ cgis,
        (s.conflict_groups_waiting.getD cgi 0 = m →
          s2.conflict_groups_waiting.getD cgi 0 = 0 ∧
          ∀ ti, (timedMembers net (groups.getD cgi [])).find?
              (fun tj => s.is_waiting.getD tj false) = some ti →
            ti ∈ s2.fired_phase2) ∧
        (s.conflict_groups_waiting.getD cgi 0 ≠ m →
          s2.conflict_groups_waiting.getD cgi 0 = s.conflict_groups_waiting.getD cgi 0)) := by
  intro cgis
  induction cgis with
  | nil =>
    intro s s2 hnd h
    unfold advanceGroups at h
    injection h with h
    subst h
    exact ⟨⟨[], (List.append_nil _).symm⟩, fun j _ => rfl, fun x _ => rfl,
      fun cgi hc => absurd hc (List.not_mem_nil _)⟩
  | cons c cs ih =>
    intro s s2 hnd h
    have hndc := List.nodup_cons.mp hnd
    unfold advanceGroups at h
    by_cases hceq : s.conflict_groups_waiting.getD c 0 = m
    · rw [if_pos hceq] at h
      cases hfind : (timedMembers net (groups.getD c [])).find?
          (fun tj => s.is_waiting.getD tj false) with
      | none =>
        rw [hfind] at h
        have IH := ih _ _ hndc.2 h
        refine ⟨IH.1, ?_, ?_, ?_⟩
        · intro j hj
          have hj2 : j ∉ cs := fun hc2 => hj (List.mem_cons_of_mem _ hc2)
          have hjc : c ≠ j := fun he => hj (he ▸ List.mem_cons_self _ _)
          exact (IH.2.1 j hj2).trans (getD_set_ne2 s.conflict_groups_waiting c j 0 0 hjc)
        · intro x hx
          exact IH.2.2.1 x (fun cgi hc2 => hx cgi (List.mem_cons_of_mem _ hc2))
        · intro cgi hcgi
          rcases List.mem_cons.mp hcgi with rfl | hcs
          · refine ⟨fun _ => ⟨?_, ?_⟩, fun hne => absurd hceq hne⟩
            · exact (IH.2.1 cgi hndc.1).trans (getD_set_zero_self s.conflict_groups_waiting cgi)
            · intro ti hti
              rw [hfind] at hti
              exact Option.noConfusion hti
          · have hcc : cgi ≠ c := fun he => hndc.1 (he ▸ hcs)
            have hIH := IH.2.2.2 cgi hcs
            constructor
            · intro hm2
              exact hIH.1 ((getD_set_ne2 s.conflict_groups_waiting c cgi 0 0
                (Ne.symm hcc)).trans hm2)
            · intro hne2
              have hne3 : (s.conflict_groups_waiting.set c 0).getD cgi 0 ≠ m := by
                rw [getD_set_ne2 s.conflict_groups_waiting c cgi 0 0 (Ne.symm hcc)]
                exact hne2
              exact (hIH.2 hne3).trans
                (getD_set_ne2 s.conflict_groups_waiting c cgi 0 0 (Ne.symm hcc))
      | some ti0 =>
        rw [hfind] at h
        have hti0g : ti0 ∈ groups.getD c [] :=
          timedMembers_subset net _ _ (List.mem_of_find?_eq_some hfind)
        have h2 : (if output_possible net s.tokens ti0 = true then
            advanceGroups net groups m cs
              { fire_phase2 net ti0 s with
                conflict_groups_waiting :=
                  (fire_phase2 net ti0 s).conflict_groups_waiting.set c 0 }
          else
            (.error "timed transition was fired, but output not possible for phase 2" :
              Except String (NetState T))) = .ok s2 := h
        by_cases hout : output_possible net s.tokens ti0 = true
        · rw [if_pos hout] at h2
          have IH := ih _ _ hndc.2 h2
          refine ⟨?_, ?_, ?_, ?_⟩
          · obtain ⟨ext, hext⟩ := IH.1
            refine ⟨ti0 :: ext, ?_⟩
            have hext2 : s2.fired_phase2 = (s.fired_phase2 ++ [ti0]) ++ ext := hext
            rw [hext2, List.append_assoc]
            rfl
          · intro j hj
            have hj2 : j ∉ cs := fun hc2 => hj (List.mem_cons_of_mem _ hc2)
            have hjc : c ≠ j := fun he => hj (he ▸ List.mem_cons_self _ _)
            exact (IH.2.1 j hj2).trans (getD_set_ne2 s.conflict_groups_waiting c j 0 0 hjc)
          · intro x hx
            have hxc : x ∉ groups.getD c [] := hx c (List.mem_cons_self _ _)
            have hxti : ti0 ≠ x := fun he => hxc (he ▸ hti0g)
            exact (IH.2.2.1 x (fun cgi hc2 => hx cgi (List.mem_cons_of_mem _ hc2))).trans
              (getD_set_ne2 s.is_waiting ti0 x false false hxti)
          · intro cgi hcgi
            rcases List.mem_cons.mp hcgi with rfl | hcs
            · refine ⟨fun _ => ⟨?_, ?_⟩, fun hne => absurd hceq hne⟩
              · exact (IH.2.1 cgi hndc.1).trans
                  (getD_set_zero_self s.conflict_groups_waiting cgi)
              · intro ti hti
                rw [hfind] at hti
                have hti2 : ti0 = ti := Option.some.inj hti
                subst hti2
                obtain ⟨ext, hext⟩ := IH.1
                have hext2 : s2.fired_phase2 = (s.fired_phase2 ++ [ti0]) ++ ext := hext
                rw [hext2]
                exact List.mem_append.mpr (Or.inl (List.mem_append.mpr
                  (Or.inr (List.mem_singleton.mpr rfl))))
            · have hcc : cgi ≠ c := fun he => hndc.1 (he ▸ hcs)
              have hIH := IH.2.2.2 cgi hcs
              have hnoti : ti0 ∉ groups.getD cgi [] :=
                hdisj c cgi (Ne.symm hcc) ti0 hti0g
              have hfq : (timedMembers net (groups.getD cgi [])).find?
                  (fun tj => (s.is_waiting.set ti0 false).getD tj false) =
                  (timedMembers net (groups.getD cgi [])).find?
                  (fun tj => s.is_waiting.getD tj false) := by
                apply find?_congr2
                intro x hx
                have hxg : x ∈ groups.getD cgi [] := timedMembers_subset net _ _ hx
                have hxti : ti0 ≠ x := fun he => hnoti (he ▸ hxg)
                exact getD_set_ne2 s.is_waiting ti0 x false false hxti
              constructor
              · intro hm2
                have h1 := hIH.1 ((getD_set_ne2 s.conflict_groups_waiting c cgi 0 0
                  (Ne.symm hcc)).trans hm2)
                refine ⟨h1.1, ?_⟩
                intro ti hti
                refine h1.2 ti ?_
                exact hfq.trans hti
              · intro hne2
                have hne3 : (s.conflict_groups_waiting.set c 0).getD cgi 0 ≠ m := by
                  rw [getD_set_ne2 s.conflict_groups_waiting c cgi 0 0 (Ne.symm hcc)]
                  exact hne2
                exact (hIH.2 hne3).trans
                  (getD_set_ne2 s.conflict_groups_waiting c cgi 0 0 (Ne.symm hcc))
        · rw [if_neg hout] at h2
          exact Except.noConfusion h2
    · rw [if_neg hceq] at h
      have IH := ih _ _ hndc.2 h
      refine ⟨IH.1, ?_, ?_, ?_⟩
      · intro j hj
        exact IH.2.1 j (fun hc2 => hj (List.mem_cons_of_mem _ hc2))
      · intro x hx
        exact IH.2.2.1 x (fun cgi hc2 => hx cgi (List.mem_cons_of_mem _ hc2))
      · intro cgi hcgi
        rcases List.mem_cons.mp hcgi with rfl | hcs
        · exact ⟨fun hm2 => absurd hm2 hceq, fun _ => IH.2.1 cgi hndc.1⟩
        · exact IH.2.2.2 cgi hcs

/-- Behaviour of the whole clock-advance branch on success. -/
lemma advance_spec (net : PetriNet) (s s2 : NetState T)
    (h : advance net (makeConflictGroups net.transitions) s = .ok s2)
    (hm : 0 < minPos s.conflict_groups_waiting) :
    s2.time = s.time + minPos s.conflict_groups_waiting ∧
    ∀ cgi,
      (s.conflict_groups_waiting.getD cgi 0 = minPos s.conflict_groups_waiting →
        s2.conflict_groups_waiting.getD cgi 0 = 0 ∧
        ∀ ti, (timedMembers net ((makeConflictGroups net.transitions).getD cgi [])).find?
            (fun tj => s.is_waiting.getD tj false) = some ti →
          ti ∈ s2.fired_phase2) ∧
      (s.conflict_groups_waiting.getD cgi 0 ≠ minPos s.conflict_groups_waiting →
        s2.conflict_groups_waiting.getD cgi 0 =
          max (s.conflict_groups_waiting.getD cgi 0 - minPos s.conflict_groups_waiting) 0) := by
  have hm0 : (0 : T) ≤ minPos s.conflict_groups_waiting := le_of_lt hm
  have hmax0 : max ((0 : T) - minPos s.conflict_groups_waiting) 0 = 0 := by
    rw [zero_sub]
    exact max_eq_right (neg_nonpos.mpr hm0)
  unfold advance at h
  dsimp only at h
  split at h
  · exact Except.noConfusion h
  · next sa heq =>
    injection h with h
    subst h
    have htime := (advanceGroups_frame net (makeConflictGroups net.transitions)
      (minPos s.conflict_groups_waiting) (List.range (makeConflictGroups net.transitions).length)
      _ _ heq).1
    have hspec := advanceGroups_spec net (makeConflictGroups net.transitions)
      (minPos s.conflict_groups_waiting) (groups_disjoint net.transitions)
      (List.range (makeConflictGroups net.transitions).length)
      { s with time := s.time + minPos s.conflict_groups_waiting } sa
      (List.nodup_range _) heq
    constructor
    · exact htime
    · intro cgi
      by_cases hin : cgi ∈ List.range (makeConflictGroups net.transitions).length
      · have hc := hspec.2.2.2 cgi hin
        constructor
        · intro hm2
          have h1 := hc.1 hm2
          constructor
          · rw [getD_map_max _ _ _ hm0, h1.1]
            exact hmax0
          · exact fun ti hti => h1.2 ti hti
        · intro hne2
          rw [getD_map_max _ _ _ hm0, hc.2 hne2]
      · have hfr := hspec.2.1 cgi hin
        have hlen : (makeConflictGroups net.transitions).length ≤ cgi := by
          by_contra hcon
          exact hin (List.mem_range.mpr (Nat.lt_of_not_le hcon))
        have hgd : (makeConflictGroups net.transitions).getD cgi [] = [] :=
          getD_of_ge _ _ _ hlen
        constructor
        · intro hm2
          constructor
          · rw [getD_map_max _ _ _ hm0, hfr, hm2]
            -- the timer equals the minimum, so the final clip still lands on 0
            rw [sub_self]
            exact max_eq_right (le_refl 0)
          · intro ti hti
            rw [hgd, timedMembers_nil] at hti
            exact Option.noConfusion hti
        · intro hne2
          rw [getD_map_max _ _ _ hm0, hfr]

/-- C7: when phase 1 fired nothing and some group timer is positive, a
successful step() advances the clock by exactly the minimum positive
waiting timer m of the post-phase-1 state; every group whose timer equals
m ends with timer 0 and its committed (waiting) first timed member
recorded in the phase-2 log; every other group index ends with its timer
decreased by m and floored at zero. -/
theorem timed_advance_spec (net : PetriNet) (choose_time : Nat → T) (s : NetState T)
    (r : Rng) (s1 : NetState T) (r1 : Rng)
    (hnf : (stepPhase1 net choose_time s r).num_fired = 0)
    (hw : (stepPhase1 net choose_time s r).s.conflict_groups_waiting.filter
      (fun w => 0 < w) ≠ [])
    (h : step net choose_time s r = .ok (s1, r1)) :
    s1.time = s.time +
      minPos (stepPhase1 net choose_time s r).s.conflict_groups_waiting ∧
    ∀ cgi,
      ((stepPhase1 net choose_time s r).s.conflict_groups_waiting.getD cgi 0 =
          minPos (stepPhase1 net choose_time s r).s.conflict_groups_waiting →
        s1.conflict_groups_waiting.getD cgi 0 = 0 ∧
        ∀ ti, (timedMembers net ((makeConflictGroups net.transitions).getD cgi [])).find?
            (fun tj => (stepPhase1 net choose_time s r).s.is_waiting.getD tj false) =
              some ti →
          ti ∈ s1.fired_phase2) ∧
      ((stepPhase1 net choose_time s r).s.conflict_groups_waiting.getD cgi 0 ≠
          minPos (stepPhase1 net choose_time s r).s.conflict_groups_waiting →
        s1.conflict_groups_waiting.getD cgi 0 =
          max ((stepPhase1 net choose_time s r).s.conflict_groups_waiting.getD cgi 0 -
            minPos (stepPhase1 net choose_time s r).s.conflict_groups_waiting) 0) := by
  obtain ⟨hr, sa, hs1, hcase⟩ := step_ok_cases net choose_time s r s1 r1 h
  rcases hcase with ⟨hc, hA⟩ | ⟨hc, he⟩
  · have hm : 0 < minPos (stepPhase1 net choose_time s r).s.conflict_groups_waiting :=
      minPos_pos _ hw
    have hspec := advance_spec net _ sa hA hm
    have hfin := stepFinish_rest ((computeEnabled net s).any id)
      (((stepPhase1 net choose_time s r).s.conflict_groups_waiting.filter
        (fun w => 0 < w)).length) sa
    have hw1 : s1.conflict_groups_waiting = sa.conflict_groups_waiting := by
      rw [hs1]
      exact hfin.2.2.2.1
    have ht1 : s1.time = sa.time := by
      rw [hs1]
      exact hfin.1
    have hf1 : s1.fired_phase2 = sa.fired_phase2 := by
      rw [hs1]
      exact hfin.2.2.2.2.2.1
    have hpt : (stepPhase1 net choose_time s r).s.time = s.time :=
      (stepPhase1_frame net choose_time s r).1
    constructor
    · rw [ht1, hspec.1, hpt]
    · intro cgi
      have hcg := hspec.2 cgi
      constructor
      · intro hm2
        have h1 := hcg.1 hm2
        rw [hw1, hf1]
        exact ⟨h1.1, h1.2⟩
      · intro hne2
        rw [hw1]
        exact hcg.2 hne2
  · exfalso
    apply hc
    constructor
    · exact List.length_pos.mpr hw
    · exact hnf

/-- The state of netTimed after its commitment step: transition 0 is
waiting and the single group timer is 5. -/
def stCommitted : NetState Int :=
  ⟨[1, 0], [true], [5], 0, 1, [0], [], [], false⟩

/-- Witness for C7: the second step of netTimed advances the clock by the
unique positive timer 5, zeroes the timer and phase-2 fires transition 0. -/
theorem timed_advance_spec_witness :
    (⟨[0, 1], [false], [0], 5, 2, [], [0], [], false⟩ : NetState Int).time =
      stCommitted.time +
        minPos (stepPhase1 netTimed delay5 stCommitted (Rng.mk [])).s.conflict_groups_waiting ∧
    ∀ cgi,
      ((stepPhase1 netTimed delay5 stCommitted (Rng.mk [])).s.conflict_groups_waiting.getD
          cgi 0 =
          minPos (stepPhase1 netTimed delay5 stCommitted (Rng.mk [])).s.conflict_groups_waiting →
        (⟨[0, 1], [false], [0], 5, 2, [], [0], [], false⟩ :
          NetState Int).conflict_groups_waiting.getD cgi 0 = 0 ∧
        ∀ ti, (timedMembers netTimed
            ((makeConflictGroups netTimed.transitions).getD cgi [])).find?
            (fun tj => (stepPhase1 netTimed delay5 stCommitted
              (Rng.mk [])).s.is_waiting.getD tj false) = some ti →
          ti ∈ (⟨[0, 1], [false], [0], 5, 2, [], [0], [], false⟩ :
            NetState Int).fired_phase2) ∧
      ((stepPhase1 netTimed delay5 stCommitted (Rng.mk [])).s.conflict_groups_waiting.getD
          cgi 0 ≠
          minPos (stepPhase1 netTimed delay5 stCommitted (Rng.mk [])).s.conflict_groups_waiting →
        (⟨[0, 1], [false], [0], 5, 2, [], [0], [], false⟩ :
          NetState Int).conflict_groups_waiting.getD cgi 0 =
          max ((stepPhase1 netTimed delay5 stCommitted
            (Rng.mk [])).s.conflict_groups_waiting.getD cgi 0 -
            minPos (stepPhase1 netTimed delay5 stCommitted
              (Rng.mk [])).s.conflict_groups_waiting) 0) :=
  timed_advance_spec netTimed delay5 stCommitted (Rng.mk [])
    ⟨[0, 1], [false], [0], 5, 2, [], [0], [], false⟩ (Rng.mk [])
    (by decide) (by decide) (by decide)

end PetNetSim
